import Mathlib

/-!
Shallow embedding of the Hypercast incremental harvesting and reconciliation
engine (src/parse-hypersnap.ts, the cast-feed store in the same module,
src/hypersnap.ts, src/config.ts and scripts/poller.ts), together with proofs
settling the specification claims about it.

Modelling conventions, used throughout:
* JavaScript numbers and bigints are both embedded as `Int`.  Every numeric
  field that the engine touches is produced by `asNumber`/`asBigInt`, which
  truncate to integers, so the integer embedding is exact for the behaviour
  under study; `Math.trunc` is the identity here.
* JSON values are embedded as the inductive `Json`.  A missing property is
  `Option.none` (JavaScript `undefined`); `Json.null` is JSON `null`.
  Property access on a non-null value never throws in JavaScript, and is
  modelled by the total `jsGet`/`jsChain`; property access on `null` throws a
  TypeError, which the top-level parser models explicitly.
* The TypeScript action records carry `eventId` as a decimal string that every
  consumer immediately coerces with `safeBigInt`; we embed the coerced integer
  directly, which is faithful because the string is used nowhere else by the
  code under study.
* JavaScript string library calls (trim, toLowerCase, slice) are modelled by
  list-of-character operations with the same behaviour on the character sets
  the engine handles.
-/

namespace Hypercast

/-- Json models a JavaScript value produced by JSON.parse: null, booleans,
numbers (embedded as integers, see the module comment), strings, arrays and
objects. -/
inductive Json where
  | null : Json
  | bool : Bool → Json
  | num : Int → Json
  | str : String → Json
  | arr : List Json → Json
  | obj : List (String × Json) → Json

/-- First binding of a key in an object literal.  JSON.parse keeps the last
duplicate key, so parsed objects never contain duplicates and first-match
lookup is exact for them. -/
def jsLookup : List (String × Json) → String → Option Json
  | [], _ => none
  | (k, v) :: rest, key => if k = key then some v else jsLookup rest key

/-- Property access on a value known to be non-null: objects yield the bound
value or undefined (`none`); primitives and arrays yield undefined for the
named properties the engine reads. -/
def jsGet (j : Json) (key : String) : Option Json :=
  match j with
  | Json.obj fields => jsLookup fields key
  | _ => none

/-- Optional-chaining access `x?.key`: null and undefined short-circuit to
undefined, everything else is a plain property access. -/
def jsChain (oj : Option Json) (key : String) : Option Json :=
  match oj with
  | some j => jsGet j key
  | none => none

/-- Falsiness of a JavaScript value (undefined, null, false, 0 and the empty
string are falsy). -/
def jsFalsy (oj : Option Json) : Bool :=
  match oj with
  | none => true
  | some Json.null => true
  | some (Json.bool b) => !b
  | some (Json.num n) => n = 0
  | some (Json.str s) => s = ""
  | some (Json.arr _) => false
  | some (Json.obj _) => false

/-- Discriminates values with `typeof x === "object"` (null, arrays and
objects). -/
def jsTypeofObject : Json → Bool
  | Json.null => true
  | Json.arr _ => true
  | Json.obj _ => true
  | _ => false

/-- Strict equality `x === s` of a possibly-undefined value against a string
literal: true exactly when the value is that string. -/
def jsIsStr (oj : Option Json) (s : String) : Bool :=
  match oj with
  | some (Json.str t) => t = s
  | _ => false

/-- Nullish coalescing `x ?? dflt`. -/
def jsNullishOr (oj : Option Json) (dflt : Json) : Json :=
  match oj with
  | none => dflt
  | some Json.null => dflt
  | some j => j

/-- Characters treated as whitespace by the string helpers (the engine only
ever trims ordinary ASCII whitespace). -/
def jsIsSpace (c : Char) : Bool :=
  c = ' ' || c = '\t' || c = '\n' || c = '\r'

/-- JavaScript `String.prototype.trim` on the character sets in play. -/
def jsTrim (s : String) : String :=
  ⟨((s.data.dropWhile jsIsSpace).reverse.dropWhile jsIsSpace).reverse⟩

/-- Lower-casing of ASCII strings (`String.prototype.toLowerCase`). -/
def jsToLower (s : String) : String :=
  ⟨s.data.map Char.toLower⟩

def isDigitChar (c : Char) : Bool := '0' ≤ c && c ≤ '9'

def isHexChar (c : Char) : Bool :=
  isDigitChar c || ('a' ≤ c && c ≤ 'f') || ('A' ≤ c && c ≤ 'F')

def isBase64Char (c : Char) : Bool :=
  ('A' ≤ c && c ≤ 'Z') || ('a' ≤ c && c ≤ 'z') || isDigitChar c ||
    c = '+' || c = '/' || c = '='

/-- Numeric value of a decimal digit list (most significant first). -/
def decimalValue (cs : List Char) : Nat :=
  cs.foldl (fun acc c => acc * 10 + (c.toNat - 48)) 0

def hexDigitValue (c : Char) : Nat :=
  if isDigitChar c then c.toNat - 48
  else if 'a' ≤ c && c ≤ 'f' then c.toNat - 87
  else if 'A' ≤ c && c ≤ 'F' then c.toNat - 55
  else 0

def hexValue (cs : List Char) : Nat :=
  cs.foldl (fun acc c => acc * 16 + hexDigitValue c) 0

/-- Matches /^\d+$/ on a non-empty string. -/
def isAllDigits (cs : List Char) : Bool :=
  !cs.isEmpty && cs.all isDigitChar

/-- Matches /^0x[0-9a-fA-F]+$/. -/
def isHexLiteral (cs : List Char) : Bool :=
  match cs with
  | '0' :: 'x' :: rest => !rest.isEmpty && rest.all isHexChar
  | _ => false

/-- Matches /^[0-9a-fA-F]+$/ on a non-empty string. -/
def isBareHex (cs : List Char) : Bool :=
  !cs.isEmpty && cs.all isHexChar

/-- Matches /^[A-Za-z0-9+\/=]+$/ on a non-empty string. -/
def isBase64Shape (cs : List Char) : Bool :=
  !cs.isEmpty && cs.all isBase64Char

/-- Value of one base64 alphabet character. -/
def base64CharValue (c : Char) : Nat :=
  if 'A' ≤ c && c ≤ 'Z' then c.toNat - 65
  else if 'a' ≤ c && c ≤ 'z' then c.toNat - 71
  else if isDigitChar c then c.toNat + 4
  else if c = '+' then 62
  else if c = '/' then 63
  else 0

/-- Byte groups of a base64 body: four characters yield three bytes; a
trailing group of three yields two bytes, of two yields one byte, and a lone
character yields nothing, matching the forgiving Node decoder on the
alphabet-only strings the regular expression admits. -/
def base64Groups : List Char → List Nat
  | a :: b :: c :: d :: rest =>
      (base64CharValue a * 4 + base64CharValue b / 16) ::
      (base64CharValue b % 16 * 16 + base64CharValue c / 4) ::
      (base64CharValue c % 4 * 64 + base64CharValue d) ::
      base64Groups rest
  | [a, b, c] =>
      [base64CharValue a * 4 + base64CharValue b / 16,
       base64CharValue b % 16 * 16 + base64CharValue c / 4]
  | [a, b] =>
      [base64CharValue a * 4 + base64CharValue b / 16]
  | _ => []

/-- Model of `Buffer.from(raw, "base64")`: characters after the first padding
sign are ignored, the rest decode in groups. -/
def base64Decode (cs : List Char) : List Nat :=
  base64Groups (cs.takeWhile (fun c => c ≠ '='))

def hexDigitChar (n : Nat) : Char :=
  if n < 10 then Char.ofNat (48 + n) else Char.ofNat (87 + n)

/-- Lowercase hex rendering of a byte list (`Buffer.prototype.toString`
with the hex encoding). -/
def bytesToHex (bs : List Nat) : String :=
  ⟨bs.flatMap (fun b => [hexDigitChar (b / 16 % 16), hexDigitChar (b % 16)])⟩

/-- Model of `Number.parseInt(input, 10)`: skip whitespace, read an optional
sign and the longest digit prefix; no digits means NaN (`none`). -/
def jsParseInt (s : String) : Option Int :=
  let cs := s.data.dropWhile jsIsSpace
  let readDigits : List Char → Option Nat := fun l =>
    let ds := l.takeWhile isDigitChar
    if ds.isEmpty then none else some (decimalValue ds)
  match cs with
  | '-' :: rest => (readDigits rest).map (fun n => -(n : Int))
  | '+' :: rest => (readDigits rest).map (fun n => (n : Int))
  | rest => (readDigits rest).map (fun n => (n : Int))

/-- Source helper `asString` (parse-hypersnap.ts line 52): strings pass
through, everything else falls back. -/
def asString (input : Option Json) (fallback : String) : String :=
  match input with
  | some (Json.str s) => s
  | _ => fallback

/-- Source helper `asNumber` (line 56): finite numbers are truncated with
negatives rejected; strings go through parseInt with negatives rejected;
everything else falls back. -/
def asNumber (input : Option Json) (fallback : Int) : Int :=
  match input with
  | some (Json.num n) => if n < 0 then fallback else n
  | some (Json.str s) =>
      match jsParseInt s with
      | some p => if 0 ≤ p then p else fallback
      | none => fallback
  | _ => fallback

/-- Source helper `asBigInt` (line 69): non-negative numbers are truncated;
trimmed strings matching a decimal or 0x-hex literal convert exactly;
everything else falls back.  The try/catch in the source never fires on the
accepted shapes. -/
def asBigInt (input : Option Json) (fallback : Int) : Int :=
  match input with
  | some (Json.num n) => if n < 0 then fallback else n
  | some (Json.str s) =>
      let trimmed := (jsTrim s).data
      if trimmed.isEmpty then fallback
      else if isAllDigits trimmed then (decimalValue trimmed : Int)
      else if isHexLiteral trimmed then (hexValue (trimmed.drop 2) : Int)
      else fallback
  | _ => fallback

/-- Source helper `normalizeHash` (line 88): 0x-hex, bare hex or base64 input
is canonicalised to lowercase 0x-prefixed hex; anything else (including a
base64 body that decodes to zero bytes) normalises to absent. -/
def normalizeHash (input : Option Json) : Option String :=
  let raw := asString input ""
  if raw = "" then none
  else if isHexLiteral raw.data then
    some ("0x" ++ jsToLower ⟨raw.data.drop 2⟩)
  else if isBareHex raw.data then
    some ("0x" ++ jsToLower raw)
  else if isBase64Shape raw.data then
    let decoded := base64Decode raw.data
    if decoded.isEmpty then none else some ("0x" ++ bytesToHex decoded)
  else none

def MAX_TEXT_LENGTH : Nat := 2048

/-- Source helper `normalizeText` (line 112): strips NUL characters, trims,
and truncates to the maximum length with an ellipsis marker. -/
def normalizeText (input : Option Json) : String :=
  let value := jsTrim ⟨(asString input "").data.filter (fun c => c ≠ '\x00')⟩
  if value.data.length ≤ MAX_TEXT_LENGTH then value
  else ⟨value.data.take (MAX_TEXT_LENGTH - 1)⟩ ++ "…"

/-- Source helper `normalizeMentions` (line 118): non-arrays yield the empty
list; array items are coerced with fallback -1 and filtered to the
non-negative integers. -/
def normalizeMentions (input : Option Json) : List Int :=
  match input with
  | some (Json.arr items) =>
      (items.map (fun item => asNumber (some item) (-1))).filter (fun n => 0 ≤ n)
  | _ => []

/-- ParsedCastAction (types.ts): a normalised upsert.  `eventId` is the
coerced integer (module comment); `blockNumber` is optional in the interface
although the parser always supplies it. -/
structure ParsedCastAction where
  hash : String
  fid : Int
  createdAtSeconds : Int
  text : String
  mentions : List Int
  parentFid : Option Int
  parentHash : Option String
  sourceType : String
  eventId : Int
  blockNumber : Option Int
deriving DecidableEq, Repr

/-- ParsedDeleteAction (types.ts): a normalised delete. -/
structure ParsedDeleteAction where
  hash : String
  eventId : Int
  sourceType : String
  blockNumber : Option Int
  eventTimestampSeconds : Int
deriving DecidableEq, Repr

/-- ParsedEvent (types.ts): the tagged union of the two action kinds. -/
inductive ParsedEvent where
  | upsert : ParsedCastAction → ParsedEvent
  | delete : ParsedDeleteAction → ParsedEvent
deriving DecidableEq, Repr

/-- PollCursor (types.ts). -/
structure PollCursor where
  fromEventId : Int
  pageToken : Option String
deriving DecidableEq, Repr

/-- ParsedEventsPage (types.ts). -/
structure ParsedEventsPage where
  events : List ParsedEvent
  cursor : PollCursor
  hasMore : Bool
  receivedCount : Nat
  pageToken : Option String
deriving DecidableEq, Repr

/-- Source `parseCastAdd` (line 125): yields an upsert when the embedded
message is a cast-add whose hash normalises, with field-level fallbacks. -/
def parseCastAdd (message : Option Json) (eventId : Int) (blockNumber : Int)
    (sourceType : String) (timestampSeconds : Int) : Option ParsedCastAction :=
  let mData := jsChain message "data"
  if jsFalsy mData || !jsIsStr (jsChain mData "type") "MESSAGE_TYPE_CAST_ADD" then
    none
  else
    let hash := normalizeHash (jsChain message "hash")
    let castAddBody := jsNullishOr (jsChain mData "castAddBody") (Json.obj [])
    match hash with
    | none => none
    | some h =>
      let createdAtSeconds := asNumber (jsChain mData "timestamp") timestampSeconds
      let parentCastId := jsGet castAddBody "parentCastId"
      let parentHash := normalizeHash (jsChain parentCastId "hash")
      let parentFid :=
        match parentHash with
        | some _ => some (asNumber (jsChain parentCastId "fid") 0)
        | none => none
      some
        { hash := h
          fid := asNumber (jsChain mData "fid") 0
          createdAtSeconds := createdAtSeconds
          text := normalizeText (jsGet castAddBody "text")
          mentions := normalizeMentions (jsGet castAddBody "mentions")
          parentFid := parentFid
          parentHash := parentHash
          sourceType := sourceType
          eventId := eventId
          blockNumber := some blockNumber }

/-- Source `parseCastRemove` (line 157): yields a delete when the embedded
message is a cast-remove whose target hash normalises. -/
def parseCastRemove (message : Option Json) (eventId : Int) (blockNumber : Int)
    (sourceType : String) (timestampSeconds : Int) : Option ParsedDeleteAction :=
  let mData := jsChain message "data"
  if jsFalsy mData || !jsIsStr (jsChain mData "type") "MESSAGE_TYPE_CAST_REMOVE" then
    none
  else
    match normalizeHash (jsChain (jsChain mData "castRemoveBody") "targetHash") with
    | none => none
    | some targetHash =>
      some
        { hash := targetHash
          eventId := eventId
          sourceType := sourceType
          blockNumber := some blockNumber
          eventTimestampSeconds := timestampSeconds }

/-- Source `parseDeletedMessage` (line 179): a single embedded message yields
zero, one or two actions, add before remove. -/
def parseDeletedMessage (message : Option Json) (eventId : Int) (blockNumber : Int)
    (sourceType : String) (timestampSeconds : Int) : List ParsedEvent :=
  (match parseCastAdd message eventId blockNumber sourceType timestampSeconds with
   | some a => [ParsedEvent.upsert a]
   | none => []) ++
  (match parseCastRemove message eventId blockNumber sourceType timestampSeconds with
   | some d => [ParsedEvent.delete d]
   | none => [])

/-- Source `parseDeletedMessageList` (line 201): each element of the removed
messages side list extracts independently through the same two rules. -/
def parseDeletedMessageList (deletedMessages : Option Json) (eventId : Int)
    (blockNumber : Int) (eventSource : String) (timestampSeconds : Int) :
    List ParsedEvent :=
  match deletedMessages with
  | some (Json.arr msgs) =>
      msgs.flatMap (fun m =>
        parseDeletedMessage (some m) eventId blockNumber eventSource timestampSeconds)
  | _ => []

def HUB_MERGE : String := "HUB_EVENT_TYPE_MERGE_MESSAGE"

/-- Body of the loop of `parseEventsResponse` (line 231): the accumulator
carries the actions parsed so far together with the running maximum event
sequence number.  Non-object and unrecognised events are skipped without
touching the accumulator. -/
def processEvent (now : Int) (acc : List ParsedEvent × Int) (evt : Json) :
    List ParsedEvent × Int :=
  if jsFalsy (some evt) || !jsTypeofObject evt then acc
  else if !jsIsStr (jsGet evt "type") HUB_MERGE then acc
  else
    let eventId := asBigInt (jsGet evt "id") 0
    let blockNumber := asNumber (jsGet evt "blockNumber") 0
    let body := jsGet evt "mergeMessageBody"
    let timestampSeconds :=
      asNumber (jsChain (jsChain (jsChain body "message") "data") "timestamp") now
    let eventActions :=
      parseDeletedMessage (jsChain body "message") eventId blockNumber HUB_MERGE
        timestampSeconds ++
      parseDeletedMessageList (jsChain body "deletedMessages") eventId blockNumber
        HUB_MERGE timestampSeconds
    (acc.1 ++ eventActions, if acc.2 ≤ eventId then eventId else acc.2)

/-- Raw event list of a page payload (`Array.isArray(payload.events)` guard
of line 226). -/
def pageEventsList (payload : Json) : List Json :=
  match jsGet payload "events" with
  | some (Json.arr xs) => xs
  | _ => []

/-- Total part of `parseEventsResponse` (line 218), applied once the payload
is known to be a non-null JSON value; `now` stands for the wall-clock
timestamp fallback `Date.now() / 1000`. -/
def parsePageCore (payload : Json) (now : Int) : ParsedEventsPage :=
  let incoming := pageEventsList payload
  let folded := incoming.foldl (processEvent now) ([], 0)
  let next :=
    let a := asString (jsGet payload "nextPageToken") ""
    if a = "" then asString (jsGet payload "next_page_token") "" else a
  let pageToken := if next = "" then none else some next
  { events := folded.1
    receivedCount := incoming.length
    hasMore := pageToken.isSome && !folded.1.isEmpty
    pageToken := pageToken
    cursor :=
      { fromEventId := if 0 < folded.1.length then folded.2 + 1 else 0
        pageToken := pageToken } }

/-- Failure modes of one page parse: the `JSON.parse` SyntaxError mapped to
the MalformedPayload error of the source, and the TypeError raised by
property access on a null payload. -/
inductive JsErr where
  | malformedPayload : JsErr
  | typeError : JsErr
deriving DecidableEq, Repr

/-- Source `parseEventsResponse` (line 218).  The argument is the result of
`JSON.parse` on the page body: `none` when the body is not parseable JSON (the
source throws its MalformedPayload error), `some Json.null` when the body is
the JSON literal null (the very first property access `payload.events` then
throws a TypeError), and any other value parses totally. -/
def parseEventsResponse (raw : Option Json) (now : Int) :
    Except JsErr ParsedEventsPage :=
  match raw with
  | none => Except.error JsErr.malformedPayload
  | some Json.null => Except.error JsErr.typeError
  | some payload => Except.ok (parsePageCore payload now)

/-- JsUrl models the components of a WHATWG URL object that
`buildHypersnapEventsUrl` manipulates; `new URL(baseUrl)` is modelled by
starting from the parsed components of the base endpoint. -/
structure JsUrl where
  protocol : String
  host : String
  pathname : String
  searchParams : List (String × String)
  fragment : String
deriving DecidableEq, Repr

/-- Removal of every pair with the given key. -/
def removeParam : List (String × String) → String → List (String × String)
  | [], _ => []
  | (k, v) :: rest, key =>
      if k = key then removeParam rest key else (k, v) :: removeParam rest key

/-- URLSearchParams.set: replace the value of the first pair with the key and
drop any later pairs with it, or append when the key is absent. -/
def setParam : List (String × String) → String → String → List (String × String)
  | [], key, value => [(key, value)]
  | (k, v) :: rest, key, value =>
      if k = key then (key, value) :: removeParam rest key
      else (k, v) :: setParam rest key value

/-- First value bound to a query parameter. -/
def getParam : List (String × String) → String → Option String
  | [], _ => none
  | (k, v) :: rest, key => if k = key then some v else getParam rest key

/-- URLSearchParams.has. -/
def hasParam (ps : List (String × String)) (key : String) : Bool :=
  ps.any (fun p => p.1 = key)

/-- Source `buildHypersnapEventsUrl` (line 279): force the pathname, set the
page size floored at one, optionally set the reverse flag, then address by
page token when the cursor carries a non-empty one and by sequence number
otherwise. -/
def buildHypersnapEventsUrl (base : JsUrl) (cursor : PollCursor) (pageSize : Int)
    (reverse : Bool) : JsUrl :=
  let normalized := { base with pathname := "/v1/events" }
  let params := setParam normalized.searchParams "pageSize" (toString (max 1 pageSize))
  let params := if reverse then setParam params "reverse" "true" else params
  let params :=
    match cursor.pageToken with
    | some t =>
        if t = "" then setParam params "from_event_id" (toString cursor.fromEventId)
        else setParam params "pageToken" t
    | none => setParam params "from_event_id" (toString cursor.fromEventId)
  { normalized with searchParams := params }

/-- FeedCastRow (parse-hypersnap.ts, cast-feed section): one reconciliation
store row per hash. -/
structure FeedCastRow where
  hash : String
  fid : Int
  text : String
  createdAtMillis : Int
  parentFid : Option Int
  parentHash : Option String
  mentions : List Int
  deleted : Bool
  source : String
  eventId : Int
deriving DecidableEq, Repr

/-- The `rowByHash` map of `HypersnapCastFeed`, modelled by its lookup
function (the insertion-ordered value list is modelled separately for the
visible-rows claim, which is the only consumer of iteration order). -/
def Store : Type := String → Option FeedCastRow

def emptyStore : Store := fun _ => none

/-- Map.set on the store. -/
def storeSet (st : Store) (key : String) (row : FeedCastRow) : Store :=
  fun h => if h = key then some row else st h

/-- Row written by `upsertCastFromEvent` (line 479): fields copied from the
event, with `createdAtMillis` scaled from the clamped seconds. -/
def rowOfUpsert (a : ParsedCastAction) : FeedCastRow :=
  { hash := a.hash
    fid := a.fid
    text := a.text
    createdAtMillis := max 0 a.createdAtSeconds * 1000
    parentFid := a.parentFid
    parentHash := a.parentHash
    mentions := a.mentions
    deleted := false
    source := "hypersnap"
    eventId := a.eventId }

/-- Source `upsertCastFromEvent` (line 466): an empty hash is ignored; an
existing row with a strictly greater eventId wins; otherwise the row is
replaced by the incoming one (live, so a tombstone is revived). -/
def upsertCastFromEvent (st : Store) (a : ParsedCastAction) : Store :=
  if a.hash = "" then st
  else
    match st a.hash with
    | some existing =>
        if existing.eventId > a.eventId then st
        else storeSet st a.hash (rowOfUpsert a)
    | none => storeSet st a.hash (rowOfUpsert a)

/-- Source `tombstoneCast` (line 493): a missing or already-deleted hash
returns false; a live row is marked deleted in place.  The
placeholder-insertion block at lines 504-517 of the source is unreachable,
because the guard at line 495 already returned false whenever `existing` is
missing, so it has no counterpart here. -/
def tombstoneCast (st : Store) (hash : String) (eventId : Int) : Store × Bool :=
  match st hash with
  | none => (st, false)
  | some existing =>
      if existing.deleted then (st, false)
      else (storeSet st hash { existing with deleted := true }, true)

/-- Counts returned by one refresh (line 411). -/
structure ApplyCounts where
  added : Nat
  updated : Nat
  removed : Nat
deriving DecidableEq, Repr

/-- Body of the action loop of `refresh` (line 415): store mutation plus the
added/updated/removed counting, in source order. -/
def applyEvent (sc : Store × ApplyCounts) (e : ParsedEvent) : Store × ApplyCounts :=
  match e with
  | ParsedEvent.upsert a =>
      let previous := sc.1 a.hash
      let st := upsertCastFromEvent sc.1 a
      let counts :=
        match previous with
        | none => { sc.2 with added := sc.2.added + 1 }
        | some p =>
            if p.deleted || p.eventId < a.eventId then
              { sc.2 with updated := sc.2.updated + 1 }
            else sc.2
      (st, counts)
  | ParsedEvent.delete d =>
      let r := tombstoneCast sc.1 d.hash d.eventId
      (r.1, if r.2 then { sc.2 with removed := sc.2.removed + 1 } else sc.2)

/-- One refresh applied to the aggregated action list: final store and
counts. -/
def applyPage (events : List ParsedEvent) (st : Store) : Store × ApplyCounts :=
  events.foldl applyEvent (st, { added := 0, updated := 0, removed := 0 })

/-- Store effect of a single action, without the counting. -/
def applyEventState (st : Store) (e : ParsedEvent) : Store :=
  match e with
  | ParsedEvent.upsert a => upsertCastFromEvent st a
  | ParsedEvent.delete d => (tombstoneCast st d.hash d.eventId).1

/-- Store effect of an action list. -/
def applyStates (events : List ParsedEvent) (st : Store) : Store :=
  events.foldl applyEventState st

/-- Hash addressed by an action. -/
def eventHash : ParsedEvent → String
  | ParsedEvent.upsert a => a.hash
  | ParsedEvent.delete d => d.hash

/-- Effect of one action on the row stored under its own hash. -/
def hstep (s : Option FeedCastRow) (e : ParsedEvent) : Option FeedCastRow :=
  match e with
  | ParsedEvent.upsert a =>
      if a.hash = "" then s
      else
        match s with
        | some existing =>
            if existing.eventId > a.eventId then s else some (rowOfUpsert a)
        | none => some (rowOfUpsert a)
  | ParsedEvent.delete _ =>
      match s with
      | some existing =>
          if existing.deleted then s else some { existing with deleted := true }
      | none => none

/-- Per-hash run of an action list. -/
def hfold (s : Option FeedCastRow) (m : List ParsedEvent) : Option FeedCastRow :=
  m.foldl hstep s

/-- Visible ordering of the feed (line 383): createdAtMillis descending, then
eventId descending, then fid descending. -/
def rowOrder (a b : FeedCastRow) : Prop :=
  b.createdAtMillis < a.createdAtMillis ∨
    (a.createdAtMillis = b.createdAtMillis ∧
      (b.eventId < a.eventId ∨ (a.eventId = b.eventId ∧ b.fid ≤ a.fid)))

instance : DecidableRel rowOrder := fun a b => by
  unfold rowOrder
  infer_instance

/-- Constructor clamp of the visibility cap (line 368). -/
def clampMaxVisible (maxVisible : Int) : Int :=
  max 1 (min maxVisible 500)

/-- Source `visibleRows` (line 380) on the insertion-ordered value list of
the row map: filter out tombstones, stable-sort by the comparator, truncate
to the cap.  The stable JavaScript Array.prototype.sort is modelled by
insertion sort, which is also stable. -/
def visibleRows (rows : List FeedCastRow) (maxVisible : Int) : List FeedCastRow :=
  (List.insertionSort rowOrder (rows.filter (fun r => r.deleted = false))).take
    (clampMaxVisible maxVisible).toNat

/-- Cursor update at the end of `refresh` (line 436): the response cursor is
adopted only when it has not fallen behind the current one. -/
def refreshCursor (current : PollCursor) (response : ParsedEventsPage) : PollCursor :=
  if response.cursor.fromEventId ≥ current.fromEventId then response.cursor else current

/-- Source `fetchAllHypersnapPages` (hypersnap.ts line 45).  The remote source
is modelled by the oracle `pages`, giving the parsed result of the i-th page
fetch of this harvest; the loop index doubles as the remaining page budget. -/
def fetchAllGo (pages : Nat → ParsedEventsPage) (idx : Nat) (fuel : Nat)
    (cursor : PollCursor) (agg : ParsedEventsPage) : ParsedEventsPage :=
  match fuel with
  | 0 => agg
  | fuel' + 1 =>
    let p := pages idx
    let agg1 :=
      { agg with
        events := agg.events ++ p.events
        receivedCount := agg.receivedCount + p.receivedCount }
    if p.hasMore = false ∨ p.cursor.fromEventId ≤ cursor.fromEventId then
      { agg1 with hasMore := false, cursor := cursor, pageToken := cursor.pageToken }
    else if p.pageToken = none ∧ p.events = [] then
      { agg1 with hasMore := false, cursor := p.cursor, pageToken := p.pageToken }
    else
      fetchAllGo pages (idx + 1) fuel' p.cursor
        { agg1 with
          cursor := p.cursor
          pageToken := p.pageToken
          hasMore := if fuel' = 0 then false else p.hasMore }

/-- Initial aggregate of a harvest (line 51). -/
def emptyAggregate (cursor : PollCursor) : ParsedEventsPage :=
  { events := [], hasMore := false, pageToken := none, cursor := cursor,
    receivedCount := 0 }

def fetchAllHypersnapPages (pages : Nat → ParsedEventsPage) (startCursor : PollCursor)
    (maxPages : Nat) : ParsedEventsPage :=
  fetchAllGo pages 0 maxPages startCursor (emptyAggregate startCursor)

/-- Disjunction of the three per-page loop exit tests of
`fetchAllHypersnapPages` (lines 63 and 70), taken against the cursor used to
request the page. -/
def stopCond (cursor : PollCursor) (p : ParsedEventsPage) : Prop :=
  p.hasMore = false ∨ p.cursor.fromEventId ≤ cursor.fromEventId ∨
    (p.pageToken = none ∧ p.events = [])

instance : ∀ c p, Decidable (stopCond c p) := fun c p => by
  unfold stopCond
  infer_instance

/-- Number of pages the harvest loop fetches. -/
def pagesFetched (pages : Nat → ParsedEventsPage) (idx : Nat) (fuel : Nat)
    (cursor : PollCursor) : Nat :=
  match fuel with
  | 0 => 0
  | fuel' + 1 =>
      if stopCond cursor (pages idx) then 1
      else 1 + pagesFetched pages (idx + 1) fuel' (pages idx).cursor

/-- Cursor used to request the k-th page (0-indexed) in a run whose loop has
not stopped before page k. -/
def reqCursor (pages : Nat → ParsedEventsPage) (idx : Nat) (start : PollCursor) :
    Nat → PollCursor
  | 0 => start
  | k + 1 => (pages (idx + k)).cursor

/-- Maximum event sequence number seen among the recognised events of one raw
page payload, the quantity that the specification derives the page cursor
from.  It is stated independently of the parser loop. -/
def specMaxSeen (payload : Json) : Int :=
  (pageEventsList payload).foldl
    (fun m evt =>
      if jsFalsy (some evt) || !jsTypeofObject evt then m
      else if !jsIsStr (jsGet evt "type") HUB_MERGE then m
      else max m (asBigInt (jsGet evt "id") 0))
    0

/-- One harvest cycle of the in-memory feed: fetch and parse up to `maxPages`
raw bodies (the oracle `bodies` gives the body of the i-th fetch), then adopt
the aggregated cursor under the monotonic guard of `refresh`.  A cycle of a
successful run only ever parses non-null bodies, on which `parsePageCore` is
exactly the parser. -/
def harvestCycle (bodies : Nat → Json) (now : Int) (maxPages : Nat)
    (cursor : PollCursor) : PollCursor :=
  refreshCursor cursor
    (fetchAllHypersnapPages (fun i => parsePageCore (bodies i) now) cursor maxPages)

/-- Parameters of one harvest cycle: page-body oracle, timestamp fallback and
page budget. -/
structure CycleInput where
  bodies : Nat → Json
  now : Int
  maxPages : Nat

/-- Cursor after a sequence of harvest cycles. -/
def runCycles (inputs : List CycleInput) (cursor : PollCursor) : PollCursor :=
  inputs.foldl (fun c i => harvestCycle i.bodies i.now i.maxPages c) cursor

/-- PollerState (types.ts): the durable cursor file payload. -/
structure PollerState where
  fromEventId : String
  pageToken : Option String
deriving DecidableEq, Repr

/-- Source `toStateFilePayload` (config.ts line 87). -/
def toStateFilePayload (cursor : PollCursor) : PollerState :=
  { fromEventId := toString cursor.fromEventId, pageToken := cursor.pageToken }

/-- Source `withDefaultCursor` (poller.ts line 122). -/
def withDefaultCursor (stateCursorFrom : Int) (reducerActionsCount : Nat)
    (parsedCursor : Int) : Int :=
  if reducerActionsCount = 0 then stateCursorFrom else parsedCursor

/-- Cursor-state computation of `pollOnce` (poller.ts lines 145-172):
`reducerActions` is the mapped action list, so its length is the number of
harvested actions; the persisted token is cleared unless actions were
produced. -/
def pollOnceNextState (stateCursor : PollCursor) (result : ParsedEventsPage) :
    PollerState :=
  let nextFromEventId :=
    withDefaultCursor stateCursor.fromEventId result.events.length
      result.cursor.fromEventId
  toStateFilePayload
    { fromEventId := nextFromEventId
      pageToken := if 0 < result.events.length then result.cursor.pageToken else none }

/-! Concrete inputs used by scenario evaluations, counterexamples and
witnesses. -/

/-- Sample upsert of a fresh hash. -/
def exUpsertA : ParsedCastAction where
  hash := "0xaaa"
  fid := 1
  createdAtSeconds := 5
  text := "t"
  mentions := []
  parentFid := none
  parentHash := none
  sourceType := HUB_MERGE
  eventId := 1
  blockNumber := some 0

/-- Sample delete of a different fresh hash. -/
def exDeleteB : ParsedDeleteAction where
  hash := "0xbbb"
  eventId := 2
  sourceType := HUB_MERGE
  blockNumber := some 0
  eventTimestampSeconds := 0

/-- Row stored with eventId 5. -/
def exRow5 : FeedCastRow := rowOfUpsert { exUpsertA with hash := "0xdd", eventId := 5 }

/-- Store holding only `exRow5`. -/
def exStore5 : Store := storeSet emptyStore "0xdd" exRow5

/-- Delete carrying an eventId strictly below the stored one. -/
def exDeleteLow : ParsedDeleteAction := { exDeleteB with hash := "0xdd", eventId := 3 }

/-- Upsert and delete of one shared hash, for the replay counterexample. -/
def exPageCc : List ParsedEvent :=
  [ParsedEvent.upsert { exUpsertA with hash := "0xcc", eventId := 5 },
   ParsedEvent.delete { exDeleteB with hash := "0xcc", eventId := 5 }]

/-- Base endpoint with a path, a query and no from_event_id parameter. -/
def exBaseUrl : JsUrl where
  protocol := "http:"
  host := "example.test"
  pathname := "/api"
  searchParams := [("q", "1")]
  fragment := ""

/-- Embedded cast-add message of the parsing scenario: hash 0xDeadBeef,
owner 123. -/
def exCastAddMsg : Json := Json.obj
  [("hash", Json.str "0xDeadBeef"),
   ("data", Json.obj
     [("type", Json.str "MESSAGE_TYPE_CAST_ADD"),
      ("fid", Json.num 123),
      ("timestamp", Json.num 1700000000),
      ("castAddBody", Json.obj
        [("text", Json.str "hello world"),
         ("mentions", Json.arr [Json.num 2, Json.num 3])])])]

/-- Embedded cast-remove message targeting 0xabc. -/
def exCastRemoveMsg : Json := Json.obj
  [("data", Json.obj
     [("type", Json.str "MESSAGE_TYPE_CAST_REMOVE"),
      ("castRemoveBody", Json.obj [("targetHash", Json.str "0xabc")])]),
   ("hash", Json.str "0xignored")]

/-- Scenario page: one recognised event of sequence 10 carrying the cast-add
and, in its removed-messages list, the cast-remove. -/
def exScenarioPage : Json := Json.obj
  [("events", Json.arr
     [Json.obj
       [("type", Json.str HUB_MERGE),
        ("id", Json.num 10),
        ("mergeMessageBody", Json.obj
          [("message", exCastAddMsg),
           ("deletedMessages", Json.arr [exCastRemoveMsg])])]]),
   ("nextPageToken", Json.str "tok")]

/-- Rows for the visible-ordering witness: two live rows and a tombstone. -/
def exRowsForView : List FeedCastRow :=
  [rowOfUpsert { exUpsertA with hash := "0xa1", createdAtSeconds := 10, eventId := 7 },
   { rowOfUpsert { exUpsertA with hash := "0xa2", createdAtSeconds := 50, eventId := 3 } with
      deleted := true },
   rowOfUpsert { exUpsertA with hash := "0xa3", createdAtSeconds := 20, eventId := 9 }]

/-- First page of the harvest-termination scenario: one action, an advancing
cursor and a continuation token. -/
def exPage0 : ParsedEventsPage where
  events := [ParsedEvent.upsert exUpsertA]
  cursor := { fromEventId := 11, pageToken := some "t1" }
  hasMore := true
  receivedCount := 1
  pageToken := some "t1"

/-- Second page of the harvest-termination scenario: one action and a token,
but a cursor that does not advance past the cursor used to request it. -/
def exPage1 : ParsedEventsPage where
  events := [ParsedEvent.delete exDeleteB]
  cursor := { fromEventId := 11, pageToken := some "t2" }
  hasMore := true
  receivedCount := 1
  pageToken := some "t2"

/-- Page oracle of the harvest-termination scenario. -/
def exPagesOracle : Nat → ParsedEventsPage := fun i =>
  if i = 0 then exPage0 else exPage1

/-- First raw body of the cursor-advance counterexample: one recognised event
of sequence 10 and a continuation token. -/
def exHarvestBody0 : Json := Json.obj
  [("events", Json.arr
     [Json.obj
       [("type", Json.str HUB_MERGE),
        ("id", Json.num 10),
        ("mergeMessageBody", Json.obj
          [("message", Json.obj
            [("hash", Json.str "0xe1"),
             ("data", Json.obj
               [("type", Json.str "MESSAGE_TYPE_CAST_ADD"),
                ("fid", Json.num 1),
                ("timestamp", Json.num 100)])])])]]),
   ("nextPageToken", Json.str "t")]

/-- Second raw body of the cursor-advance counterexample: one recognised
event of sequence 50 and no continuation token. -/
def exHarvestBody1 : Json := Json.obj
  [("events", Json.arr
     [Json.obj
       [("type", Json.str HUB_MERGE),
        ("id", Json.num 50),
        ("mergeMessageBody", Json.obj
          [("message", Json.obj
            [("hash", Json.str "0xe2"),
             ("data", Json.obj
               [("type", Json.str "MESSAGE_TYPE_CAST_ADD"),
                ("fid", Json.num 1),
                ("timestamp", Json.num 100)])])])]])]

/-- Body oracle of the cursor-advance counterexample. -/
def exBodies : Nat → Json := fun i =>
  if i = 0 then exHarvestBody0 else exHarvestBody1


/-- Upper bound on the eventIds of the effective (non-empty-hash) upserts of
an action list. -/
def effUpsertBound (m : List ParsedEvent) (E : Int) : Prop :=
  ∀ a : ParsedCastAction, ParsedEvent.upsert a ∈ m → a.hash ≠ "" → a.eventId ≤ E

/-- An action list with no effective upsert. -/
def noEffUpsert (m : List ParsedEvent) : Prop :=
  ∀ a : ParsedCastAction, ParsedEvent.upsert a ∈ m → a.hash = ""

/-- Invariant tying a per-hash state to the action list that produced it: a
missing row means the list held no effective upsert, and a present row bounds
every effective upsert of the list. -/
def ubState (m : List ParsedEvent) : Option FeedCastRow → Prop
  | none => noEffUpsert m
  | some r => effUpsertBound m r.eventId

end Hypercast

namespace Hypercast

/-! Claim theorems. -/

/-- Helper: removing one key leaves lookups of other keys unchanged. -/
theorem getParam_removeParam (qs : List (String × String)) (k k2 : String)
    (hk : k2 ≠ k) : getParam (removeParam qs k) k2 = getParam qs k2 := by
  induction qs with
  | nil => rfl
  | cons q rest ih =>
    obtain ⟨a, b⟩ := q
    by_cases hq : a = k
    · simp [removeParam, hq, getParam, Ne.symm hk, ih]
    · simp only [removeParam, if_neg hq, getParam]
      rw [ih]

/-- Helper: removing one key does not change the presence of another. -/
theorem hasParam_removeParam (qs : List (String × String)) (k k2 : String)
    (hk : k2 ≠ k) : hasParam (removeParam qs k) k2 = hasParam qs k2 := by
  induction qs with
  | nil => rfl
  | cons q rest ih =>
    obtain ⟨a, b⟩ := q
    by_cases hq : a = k
    · simp [removeParam, hq, hasParam, Ne.symm hk] at ih ⊢
      exact ih
    · simp [removeParam, hq, hasParam] at ih ⊢
      rw [ih]

/-- Helper: replacing the first binding of a key binds that key. -/
theorem getParam_setParam_self (ps : List (String × String)) (k v : String) :
    getParam (setParam ps k v) k = some v := by
  induction ps with
  | nil => simp [setParam, getParam]
  | cons p rest ih =>
    obtain ⟨a, b⟩ := p
    by_cases hp : a = k
    · simp [setParam, hp, getParam]
    · simp [setParam, hp, getParam, ih]

/-- Helper: replacing one key leaves lookups of other keys unchanged. -/
theorem getParam_setParam_other (ps : List (String × String)) (k v k2 : String)
    (hk : k2 ≠ k) : getParam (setParam ps k v) k2 = getParam ps k2 := by
  induction ps with
  | nil => simp [setParam, getParam, Ne.symm hk]
  | cons p rest ih =>
    obtain ⟨a, b⟩ := p
    by_cases hp : a = k
    · simp [setParam, hp, getParam, Ne.symm hk, getParam_removeParam rest k k2 hk]
    · simp [setParam, hp, getParam, ih]

/-- Helper: after setting a key it is present. -/
theorem hasParam_setParam_self (ps : List (String × String)) (k v : String) :
    hasParam (setParam ps k v) k = true := by
  induction ps with
  | nil => simp [setParam, hasParam]
  | cons p rest ih =>
    obtain ⟨a, b⟩ := p
    by_cases hp : a = k
    · simp [setParam, hp, hasParam]
    · simp [setParam, hp, hasParam] at ih ⊢
      exact ih

/-- Helper: setting one key does not change the presence of another. -/
theorem hasParam_setParam_other (ps : List (String × String)) (k v k2 : String)
    (hk : k2 ≠ k) : hasParam (setParam ps k v) k2 = hasParam ps k2 := by
  induction ps with
  | nil => simp [setParam, hasParam, Ne.symm hk]
  | cons p rest ih =>
    obtain ⟨a, b⟩ := p
    by_cases hp : a = k
    · have h2 := hasParam_removeParam rest k k2 hk
      simp [setParam, hp, hasParam, Ne.symm hk] at h2 ⊢
      subst hp
      simpa using h2
    · simp [setParam, hp, hasParam] at ih ⊢
      rw [ih]

/-- C1: evaluation of the reconciliation store at the failing input.  On an
empty store, a page made of one upsert of a fresh hash and one delete of a
different fresh hash yields counts added 1, updated 0, removed 0 — not the
removed 1 the claim states — and leaves no tombstone under the deleted hash,
because `tombstoneCast` returns false for a missing hash before its
placeholder-insertion code can run. -/
theorem tombstone_for_unseen_hash_is_dropped :
    (applyPage [ParsedEvent.upsert exUpsertA, ParsedEvent.delete exDeleteB]
        emptyStore).2 = { added := 1, updated := 0, removed := 0 } ∧
    (applyPage [ParsedEvent.upsert exUpsertA, ParsedEvent.delete exDeleteB]
        emptyStore).1 "0xbbb" = none ∧
    (applyEventState
        ((applyPage [ParsedEvent.upsert exUpsertA, ParsedEvent.delete exDeleteB]
          emptyStore).1)
        (ParsedEvent.upsert { exUpsertA with hash := "0xbbb", eventId := 1 }))
        "0xbbb" =
      some (rowOfUpsert { exUpsertA with hash := "0xbbb", eventId := 1 }) := by
  exact ⟨by decide, by decide, by decide⟩

/-- C2 counterexample: a store holds a live row under hash 0xdd with eventId
5; a Delete carrying the strictly lower eventId 3 still mutates the stored
record (it becomes a tombstone), contradicting the claim that an action
mutates the stored record only when its eventId is at least the stored
one. -/
theorem delete_below_stored_eventId_still_mutates :
    exStore5 "0xdd" = some exRow5 ∧ exRow5.deleted = false ∧
    exRow5.eventId = 5 ∧ exDeleteLow.eventId = 3 ∧
    applyEventState exStore5 (ParsedEvent.delete exDeleteLow) "0xdd" =
      some { exRow5 with deleted := true } ∧
    applyEventState exStore5 (ParsedEvent.delete exDeleteLow) "0xdd" ≠
      exStore5 "0xdd" := by
  refine ⟨by decide, by decide, by decide, by decide, by decide, by decide⟩

/-- C2 amended: for a stored hash, an Upsert mutates the record only when its
eventId is at least the stored one, and then installs the incoming row live
(reviving a tombstone); a Delete leaves a stored tombstone alone and marks a
stored live row deleted regardless of the eventId comparison, leaving every
other stored field including the stored eventId unchanged. -/
theorem conflict_resolution_per_hash (st : Store) (h : String) (r : FeedCastRow)
    (hr : st h = some r) :
    (∀ a : ParsedCastAction, a.hash = h → a.eventId < r.eventId →
      applyEventState st (ParsedEvent.upsert a) = st) ∧
    (∀ a : ParsedCastAction, a.hash = h → h ≠ "" → r.eventId ≤ a.eventId →
      applyEventState st (ParsedEvent.upsert a) h = some (rowOfUpsert a) ∧
        (rowOfUpsert a).deleted = false) ∧
    (∀ d : ParsedDeleteAction, d.hash = h → r.deleted = true →
      applyEventState st (ParsedEvent.delete d) = st) ∧
    (∀ d : ParsedDeleteAction, d.hash = h → r.deleted = false →
      applyEventState st (ParsedEvent.delete d) h = some { r with deleted := true }) := by
  refine ⟨?_, ?_, ?_, ?_⟩
  · intro a ha hlt
    subst ha
    by_cases he : a.hash = ""
    · simp [applyEventState, upsertCastFromEvent, he]
    · simp [applyEventState, upsertCastFromEvent, he, hr]
      intro hle
      omega
  · intro a ha hne hle
    subst ha
    refine ⟨?_, rfl⟩
    have hnotgt : ¬ r.eventId > a.eventId := not_lt.mpr hle
    simp [applyEventState, upsertCastFromEvent, hne, hr, hnotgt, storeSet]
  · intro d hd hdel
    subst hd
    simp [applyEventState, tombstoneCast, hr, hdel]
  · intro d hd hlive
    subst hd
    simp [applyEventState, tombstoneCast, hr, hlive, storeSet]

/-- C2 witness: the amended conflict-resolution theorem instantiated on the
concrete store holding `exRow5`. -/
theorem conflict_resolution_per_hash_witness :
    applyEventState exStore5
        (ParsedEvent.upsert { exUpsertA with hash := "0xdd", eventId := 2 }) =
      exStore5 ∧
    applyEventState exStore5 (ParsedEvent.delete exDeleteLow) "0xdd" =
      some { exRow5 with deleted := true } := by
  have h := conflict_resolution_per_hash exStore5 "0xdd" exRow5 (by decide)
  exact ⟨h.1 { exUpsertA with hash := "0xdd", eventId := 2 } rfl (by decide),
    h.2.2.2 exDeleteLow rfl (by decide)⟩

/-- C7 counterexample: the body "null" parses as JSON, yet the parser throws
a TypeError (property access on null) rather than returning normally, so a
parseable top-level input does not guarantee a normal return. -/
theorem parse_null_payload_throws :
    parseEventsResponse (some Json.null) 0 = Except.error JsErr.typeError ∧
    JsErr.typeError ≠ JsErr.malformedPayload := by
  exact ⟨rfl, by decide⟩

/-- C7 amended: parsing fails exactly on unparseable bodies and on the JSON
literal null; an unparseable body fails with MalformedPayload, a null body
fails with the TypeError of the property access, and every other JSON value
parses normally however malformed its fields are. -/
theorem parse_failure_characterisation (raw : Option Json) (now : Int) :
    ((parseEventsResponse raw now).isOk = true ↔
      ∃ j, raw = some j ∧ j ≠ Json.null) ∧
    parseEventsResponse none now = Except.error JsErr.malformedPayload ∧
    parseEventsResponse (some Json.null) now = Except.error JsErr.typeError := by
  refine ⟨?_, rfl, rfl⟩
  match raw with
  | none =>
    refine iff_of_false (by simp [parseEventsResponse, Except.isOk, Except.toBool]) ?_
    rintro ⟨j, hj, _⟩
    cases hj
  | some Json.null =>
    refine iff_of_false (by simp [parseEventsResponse, Except.isOk, Except.toBool]) ?_
    rintro ⟨j, hj, hne⟩
    cases hj
    exact hne rfl
  | some (Json.bool b) => exact iff_of_true rfl ⟨Json.bool b, rfl, nofun⟩
  | some (Json.num n) => exact iff_of_true rfl ⟨Json.num n, rfl, nofun⟩
  | some (Json.str t) => exact iff_of_true rfl ⟨Json.str t, rfl, nofun⟩
  | some (Json.arr xs) => exact iff_of_true rfl ⟨Json.arr xs, rfl, nofun⟩
  | some (Json.obj fs) => exact iff_of_true rfl ⟨Json.obj fs, rfl, nofun⟩

/-- C7 witness: the characterisation applied to the empty-object payload,
which parses normally. -/
theorem parse_failure_characterisation_witness :
    (parseEventsResponse (some (Json.obj [])) 0).isOk = true := by
  exact (parse_failure_characterisation (some (Json.obj [])) 0).1.mpr
    ⟨Json.obj [], rfl, nofun⟩

/-- C8: the cursor persistence computation of one poll cycle advances the
persisted fromEventId from the harvest cursor only when the harvest produced
at least one action, writes the previous fromEventId back unchanged on an
empty harvest, and clears the persisted pageToken unless actions were
produced, in which case it persists the harvest cursor token. -/
theorem poll_cycle_cursor_persistence (stateCursor : PollCursor)
    (result : ParsedEventsPage) :
    (result.events = [] →
      pollOnceNextState stateCursor result =
        { fromEventId := toString stateCursor.fromEventId, pageToken := none }) ∧
    (result.events ≠ [] →
      pollOnceNextState stateCursor result =
        { fromEventId := toString result.cursor.fromEventId,
          pageToken := result.cursor.pageToken }) := by
  constructor
  · intro h
    simp [pollOnceNextState, withDefaultCursor, toStateFilePayload, h]
  · intro h
    have hlen : result.events.length ≠ 0 := by
      simpa using fun hc => h (List.length_eq_zero.mp hc)
    simp [pollOnceNextState, withDefaultCursor, toStateFilePayload, hlen,
      Nat.pos_of_ne_zero hlen]

/-- C8 witness: the persistence rule applied to one empty and one non-empty
harvest result. -/
theorem poll_cycle_cursor_persistence_witness :
    pollOnceNextState { fromEventId := 42, pageToken := some "p" }
        (emptyAggregate { fromEventId := 99, pageToken := some "t" }) =
      { fromEventId := "42", pageToken := none } ∧
    pollOnceNextState { fromEventId := 42, pageToken := some "p" }
        { events := [ParsedEvent.delete exDeleteB]
          cursor := { fromEventId := 99, pageToken := some "t" }
          hasMore := false
          receivedCount := 1
          pageToken := some "t" } =
      { fromEventId := "99", pageToken := some "t" } := by
  refine ⟨?_, ?_⟩
  · exact (poll_cycle_cursor_persistence _ _).1 rfl
  · exact (poll_cycle_cursor_persistence _ _).2 (by decide)

/-- C10 counterexample: a base endpoint whose query already carries
from_event_id keeps that parameter even though the cursor addresses by page
token, so the result contains from_event_id although the pageToken is
present. -/
theorem base_query_from_event_id_survives :
    hasParam
        (buildHypersnapEventsUrl
          { protocol := "http:", host := "h", pathname := "/x",
            searchParams := [("from_event_id", "5")], fragment := "" }
          { fromEventId := 0, pageToken := some "tok" } 10 false).searchParams
        "from_event_id" = true ∧
    (some "tok" : Option String) ≠ none := by
  exact ⟨by decide, by decide⟩

/-- C10 amended: for every base endpoint the produced URL has pathname
exactly /v1/events (any base path is discarded) and a pageSize parameter equal
to the requested size floored at one; and provided the base query itself
carries no from_event_id parameter, the result contains from_event_id exactly
when the cursor pageToken is null or empty. -/
theorem events_url_construction (base : JsUrl) (cursor : PollCursor)
    (pageSize : Int) (reverse : Bool) :
    (buildHypersnapEventsUrl base cursor pageSize reverse).pathname = "/v1/events" ∧
    getParam (buildHypersnapEventsUrl base cursor pageSize reverse).searchParams
        "pageSize" = some (toString (max 1 pageSize)) ∧
    (hasParam base.searchParams "from_event_id" = false →
      (hasParam (buildHypersnapEventsUrl base cursor pageSize reverse).searchParams
          "from_event_id" = true ↔
        (cursor.pageToken = none ∨ cursor.pageToken = some ""))) := by
  refine ⟨?_, ?_, ?_⟩
  · match hc : cursor.pageToken with
    | none => simp [buildHypersnapEventsUrl, hc]
    | some t =>
      by_cases ht : t = "" <;> simp [buildHypersnapEventsUrl, hc, ht]
  · have hps : ∀ qs t2, getParam (setParam qs "pageToken" t2) "pageSize" =
        getParam qs "pageSize" :=
      fun qs t2 => getParam_setParam_other qs "pageToken" t2 "pageSize" (by decide)
    have hfe : ∀ qs t2, getParam (setParam qs "from_event_id" t2) "pageSize" =
        getParam qs "pageSize" :=
      fun qs t2 => getParam_setParam_other qs "from_event_id" t2 "pageSize" (by decide)
    have hrv : ∀ qs t2, getParam (setParam qs "reverse" t2) "pageSize" =
        getParam qs "pageSize" :=
      fun qs t2 => getParam_setParam_other qs "reverse" t2 "pageSize" (by decide)
    match hc : cursor.pageToken with
    | none =>
      cases reverse <;>
        simp [buildHypersnapEventsUrl, hc, hps, hfe, hrv, getParam_setParam_self]
    | some t =>
      by_cases ht : t = "" <;> cases reverse <;>
        simp [buildHypersnapEventsUrl, hc, ht, hps, hfe, hrv, getParam_setParam_self]
  · intro hbase
    have hpt : ∀ qs t2, hasParam (setParam qs "pageToken" t2) "from_event_id" =
        hasParam qs "from_event_id" :=
      fun qs t2 => hasParam_setParam_other qs "pageToken" t2 "from_event_id" (by decide)
    have hpsz : ∀ qs t2, hasParam (setParam qs "pageSize" t2) "from_event_id" =
        hasParam qs "from_event_id" :=
      fun qs t2 => hasParam_setParam_other qs "pageSize" t2 "from_event_id" (by decide)
    have hrv : ∀ qs t2, hasParam (setParam qs "reverse" t2) "from_event_id" =
        hasParam qs "from_event_id" :=
      fun qs t2 => hasParam_setParam_other qs "reverse" t2 "from_event_id" (by decide)
    match hc : cursor.pageToken with
    | none =>
      cases reverse <;>
        simp [buildHypersnapEventsUrl, hc, hasParam_setParam_self]
    | some t =>
      by_cases ht : t = ""
      · cases reverse <;>
          simp [buildHypersnapEventsUrl, hc, ht, hasParam_setParam_self]
      · cases reverse <;>
          simp [buildHypersnapEventsUrl, hc, ht, hpt, hpsz, hrv, hbase]

/-- C10 witness: the URL construction applied to a base endpoint carrying a
path and a query, with a sequence-number cursor. -/
theorem events_url_construction_witness :
    (buildHypersnapEventsUrl exBaseUrl { fromEventId := 123, pageToken := none }
        77 false).pathname = "/v1/events" ∧
    getParam (buildHypersnapEventsUrl exBaseUrl
        { fromEventId := 123, pageToken := none } 77 false).searchParams
      "pageSize" = some "77" ∧
    hasParam (buildHypersnapEventsUrl exBaseUrl
        { fromEventId := 123, pageToken := none } 77 false).searchParams
      "from_event_id" = true := by
  have h := events_url_construction exBaseUrl
    { fromEventId := 123, pageToken := none } 77 false
  refine ⟨h.1, ?_, (h.2.2 (by decide)).mpr (Or.inl rfl)⟩
  rw [h.2.1]
  decide

instance : IsTotal FeedCastRow rowOrder := by
  constructor
  intro a b
  unfold rowOrder
  omega

instance : IsTrans FeedCastRow rowOrder := by
  constructor
  intro a b c hab hbc
  unfold rowOrder at hab hbc ⊢
  omega

/-- C9: the visible view consists of stored non-deleted rows, pairwise sorted
by createdAtMillis descending with ties broken by eventId and then by fid
descending, has length equal to the non-deleted count truncated at the
configured cap, is a permutation of all non-deleted rows whenever they fit
under the cap, and the cap is clamped into the range 1 to 500 at
construction. -/
theorem visible_rows_spec (rows : List FeedCastRow) (mv : Int) :
    List.Sorted rowOrder (visibleRows rows mv) ∧
    (∀ r ∈ visibleRows rows mv, r ∈ rows ∧ r.deleted = false) ∧
    (visibleRows rows mv).length =
      min (clampMaxVisible mv).toNat
        (rows.filter (fun r => r.deleted = false)).length ∧
    ((rows.filter (fun r => r.deleted = false)).length ≤ (clampMaxVisible mv).toNat →
      List.Perm (visibleRows rows mv) (rows.filter (fun r => r.deleted = false))) ∧
    1 ≤ clampMaxVisible mv ∧ clampMaxVisible mv ≤ 500 := by
  have hsorted := List.sorted_insertionSort rowOrder
    (rows.filter (fun r => r.deleted = false))
  have hperm := List.perm_insertionSort rowOrder
    (rows.filter (fun r => r.deleted = false))
  refine ⟨?_, ?_, ?_, ?_, ?_, ?_⟩
  · exact List.Pairwise.sublist (List.take_sublist _ _) hsorted
  · intro r hr
    have hr2 : r ∈ List.insertionSort rowOrder
        (rows.filter (fun r => r.deleted = false)) :=
      List.mem_of_mem_take hr
    have hr3 : r ∈ rows.filter (fun r => r.deleted = false) := hperm.mem_iff.mp hr2
    have hr4 := List.mem_filter.mp hr3
    exact ⟨hr4.1, by simpa using hr4.2⟩
  · rw [visibleRows, List.length_take, hperm.length_eq]
  · intro hle
    rw [visibleRows, List.take_of_length_le (by rw [hperm.length_eq]; exact hle)]
    exact hperm
  · unfold clampMaxVisible
    omega
  · unfold clampMaxVisible
    omega

/-- C9 witness: the visible-view characterisation applied to a store list
with two live rows and one tombstone, under a cap that admits both. -/
theorem visible_rows_spec_witness :
    List.Perm (visibleRows exRowsForView 5)
      (exRowsForView.filter (fun r => r.deleted = false)) ∧
    (visibleRows exRowsForView 5).length = 2 := by
  have h := visible_rows_spec exRowsForView 5
  refine ⟨h.2.2.2.1 (by decide), ?_⟩
  rw [h.2.2.1]
  decide

/-- Helper: the maximum-sequence accumulator of the parser loop computes the
running maximum of the recognised event identifiers. -/
theorem processEvent_max (now : Int) (xs : List Json) :
    ∀ acc : List ParsedEvent × Int,
      (xs.foldl (processEvent now) acc).2 =
        xs.foldl (fun m evt =>
          if jsFalsy (some evt) || !jsTypeofObject evt then m
          else if !jsIsStr (jsGet evt "type") HUB_MERGE then m
          else max m (asBigInt (jsGet evt "id") 0)) acc.2 := by
  induction xs with
  | nil => intro acc; rfl
  | cons x rest ih =>
    intro acc
    rw [List.foldl_cons, List.foldl_cons, ih]
    congr 1
    by_cases h1 : (jsFalsy (some x) || !jsTypeofObject x) = true
    · simp [processEvent, h1]
    · by_cases h2 : (!jsIsStr (jsGet x "type") HUB_MERGE) = true
      · simp [processEvent, h1, h2]
      · simp [processEvent, h1, h2, max_def]

/-- Helper: the parsed action list of a page, as the first component of the
parser loop. -/
theorem parsePageCore_events (payload : Json) (now : Int) :
    (parsePageCore payload now).events =
      ((pageEventsList payload).foldl (processEvent now) ([], 0)).1 := rfl

/-- Helper: the page cursor before the emptiness test. -/
theorem parsePageCore_cursor (payload : Json) (now : Int) :
    (parsePageCore payload now).cursor.fromEventId =
      if 0 < ((pageEventsList payload).foldl (processEvent now) ([], 0)).1.length
      then ((pageEventsList payload).foldl (processEvent now) ([], 0)).2 + 1
      else 0 := rfl

/-- C6: the cursor returned for a parseable page has fromEventId equal to the
maximum event sequence number seen among the recognised events of that page
plus one when at least one action was produced, and zero when none was; in
particular the scenario page (one recognised event of sequence 10 carrying a
cast-add of hash 0xdeadbeef and a cast-remove of 0xabc in its
removed-messages list) yields exactly two actions and cursor fromEventId
11. -/
theorem parse_cursor_from_max_seen (payload : Json) (now : Int) :
    ((parsePageCore payload now).cursor.fromEventId =
      if (parsePageCore payload now).events = [] then 0
      else specMaxSeen payload + 1) ∧
    (parsePageCore exScenarioPage 999).events.length = 2 ∧
    (parsePageCore exScenarioPage 999).cursor.fromEventId = 11 := by
  refine ⟨?_, by decide, by decide⟩
  rw [parsePageCore_cursor, parsePageCore_events]
  rw [processEvent_max now (pageEventsList payload) ([], 0)]
  by_cases hev :
      ((pageEventsList payload).foldl (processEvent now) ([], 0)).1 = []
  · simp [hev, specMaxSeen]
  · have hpos : 0 <
        ((pageEventsList payload).foldl (processEvent now) ([], 0)).1.length :=
      List.length_pos.mpr hev
    simp [hev, hpos, specMaxSeen]

/-- Helper: request cursors shift by one page. -/
theorem reqCursor_shift (pages : Nat → ParsedEventsPage) (idx : Nat) (c : PollCursor)
    (k : Nat) :
    reqCursor pages idx c (k + 1) = reqCursor pages (idx + 1) (pages idx).cursor k := by
  match k with
  | 0 => rfl
  | k' + 1 =>
    show (pages (idx + (k' + 1))).cursor = (pages (idx + 1 + k')).cursor
    rw [show idx + (k' + 1) = idx + 1 + k' from by omega]

/-- Helper: the loop never fetches more than its budget. -/
theorem pagesFetched_le (fuel : Nat) :
    ∀ (pages : Nat → ParsedEventsPage) (idx : Nat) (c : PollCursor),
      pagesFetched pages idx fuel c ≤ fuel := by
  induction fuel with
  | zero => intro pages idx c; simp [pagesFetched]
  | succ fuel ih =>
    intro pages idx c
    by_cases h : stopCond c (pages idx)
    · simp [pagesFetched, h]
    · simp only [pagesFetched, if_neg h]
      have := ih pages (idx + 1) (pages idx).cursor
      omega

/-- Helper: a positive budget fetches at least one page. -/
theorem pagesFetched_pos (fuel : Nat) (pages : Nat → ParsedEventsPage) (idx : Nat)
    (c : PollCursor) (hf : 0 < fuel) : 0 < pagesFetched pages idx fuel c := by
  match fuel, hf with
  | fuel' + 1, _ =>
    by_cases h : stopCond c (pages idx)
    · simp [pagesFetched, h]
    · simp only [pagesFetched, if_neg h]
      omega

/-- Helper: unfolding of one continuing loop iteration. -/
theorem fetchAllGo_continue (pages : Nat → ParsedEventsPage) (idx fuel : Nat)
    (c : PollCursor) (agg : ParsedEventsPage) (h : ¬ stopCond c (pages idx)) :
    fetchAllGo pages idx (fuel + 1) c agg =
      fetchAllGo pages (idx + 1) fuel (pages idx).cursor
        { agg with
          events := agg.events ++ (pages idx).events
          receivedCount := agg.receivedCount + (pages idx).receivedCount
          cursor := (pages idx).cursor
          pageToken := (pages idx).pageToken
          hasMore := if fuel = 0 then false else (pages idx).hasMore } := by
  have hnb1 : ¬ ((pages idx).hasMore = false ∨
      (pages idx).cursor.fromEventId ≤ c.fromEventId) := by
    intro hx
    rcases hx with hx | hx
    · exact h (Or.inl hx)
    · exact h (Or.inr (Or.inl hx))
  have hnb2 : ¬ ((pages idx).pageToken = none ∧ (pages idx).events = []) := by
    intro hx
    exact h (Or.inr (Or.inr hx))
  simp [fetchAllGo, hnb1, hnb2]

/-- Helper: a stopping page still contributes its actions. -/
theorem fetchAllGo_stop_events (pages : Nat → ParsedEventsPage) (idx fuel : Nat)
    (c : PollCursor) (agg : ParsedEventsPage) (h : stopCond c (pages idx)) :
    (fetchAllGo pages idx (fuel + 1) c agg).events =
      agg.events ++ (pages idx).events := by
  by_cases h1 : ((pages idx).hasMore = false ∨
      (pages idx).cursor.fromEventId ≤ c.fromEventId)
  · simp [fetchAllGo, h1]
  · have h2 : (pages idx).pageToken = none ∧ (pages idx).events = [] := by
      rcases h with h | h | h
      · exact absurd (Or.inl h) h1
      · exact absurd (Or.inr h) h1
      · exact h
    simp [fetchAllGo, h1, h2]

/-- Helper: a stopping iteration exposes either the request cursor or, for
the empty-page break, the produced cursor of a page with further data. -/
theorem fetchAllGo_stop_cursor (pages : Nat → ParsedEventsPage) (idx fuel : Nat)
    (c : PollCursor) (agg : ParsedEventsPage) (h : stopCond c (pages idx)) :
    (fetchAllGo pages idx (fuel + 1) c agg).cursor = c ∨
      ((fetchAllGo pages idx (fuel + 1) c agg).cursor = (pages idx).cursor ∧
        (pages idx).hasMore = true) := by
  by_cases h1 : ((pages idx).hasMore = false ∨
      (pages idx).cursor.fromEventId ≤ c.fromEventId)
  · left
    simp [fetchAllGo, h1]
  · have h2 : (pages idx).pageToken = none ∧ (pages idx).events = [] := by
      rcases h with h | h | h
      · exact absurd (Or.inl h) h1
      · exact absurd (Or.inr h) h1
      · exact h
    right
    constructor
    · simp [fetchAllGo, h1, h2]
    · rcases not_or.mp h1 with ⟨hm, _⟩
      simpa using hm

/-- Helper: the aggregate accumulates the actions of every fetched page in
receipt order. -/
theorem fetchAllGo_events (fuel : Nat) :
    ∀ (pages : Nat → ParsedEventsPage) (idx : Nat) (c : PollCursor)
      (agg : ParsedEventsPage),
      (fetchAllGo pages idx fuel c agg).events =
        agg.events ++ (List.range' idx (pagesFetched pages idx fuel c)).flatMap
          (fun i => (pages i).events) := by
  induction fuel with
  | zero => intro pages idx c agg; simp [fetchAllGo, pagesFetched]
  | succ fuel ih =>
    intro pages idx c agg
    by_cases h : stopCond c (pages idx)
    · rw [fetchAllGo_stop_events pages idx fuel c agg h]
      have hN : pagesFetched pages idx (fuel + 1) c = 1 := by
        simp [pagesFetched, h]
      rw [hN]
      simp [List.range'_succ]
    · rw [fetchAllGo_continue pages idx fuel c agg h, ih]
      have hN : pagesFetched pages idx (fuel + 1) c =
          1 + pagesFetched pages (idx + 1) fuel (pages idx).cursor := by
        simp [pagesFetched, h]
      rw [hN]
      rw [show 1 + pagesFetched pages (idx + 1) fuel (pages idx).cursor =
          pagesFetched pages (idx + 1) fuel (pages idx).cursor + 1 from by omega]
      rw [List.range'_succ]
      simp [List.append_assoc]

/-- Helper: no termination condition held on any page before the last. -/
theorem fetchAllGo_no_early_stop (fuel : Nat) :
    ∀ (pages : Nat → ParsedEventsPage) (idx : Nat) (c : PollCursor) (k : Nat),
      k + 1 < pagesFetched pages idx fuel c →
      ¬ stopCond (reqCursor pages idx c k) (pages (idx + k)) := by
  induction fuel with
  | zero =>
    intro pages idx c k hk
    simp [pagesFetched] at hk
  | succ fuel ih =>
    intro pages idx c k hk
    by_cases h : stopCond c (pages idx)
    · have hN : pagesFetched pages idx (fuel + 1) c = 1 := by
        simp [pagesFetched, h]
      omega
    · have hN : pagesFetched pages idx (fuel + 1) c =
          1 + pagesFetched pages (idx + 1) fuel (pages idx).cursor := by
        simp [pagesFetched, h]
      match k with
      | 0 =>
        intro hs
        exact h (by simpa [reqCursor] using hs)
      | k' + 1 =>
        rw [reqCursor_shift]
        rw [show idx + (k' + 1) = (idx + 1) + k' from by omega]
        exact ih pages (idx + 1) (pages idx).cursor k' (by omega)

/-- Helper: whenever the loop stops under budget, the last fetched page
satisfied a termination condition. -/
theorem fetchAllGo_stop_at_last (fuel : Nat) :
    ∀ (pages : Nat → ParsedEventsPage) (idx : Nat) (c : PollCursor),
      pagesFetched pages idx fuel c < fuel →
      0 < pagesFetched pages idx fuel c →
      stopCond (reqCursor pages idx c (pagesFetched pages idx fuel c - 1))
        (pages (idx + (pagesFetched pages idx fuel c - 1))) := by
  induction fuel with
  | zero =>
    intro pages idx c h
    omega
  | succ fuel ih =>
    intro pages idx c hlt hpos
    by_cases h : stopCond c (pages idx)
    · have hN : pagesFetched pages idx (fuel + 1) c = 1 := by
        simp [pagesFetched, h]
      rw [hN]
      simpa [reqCursor] using h
    · have hN : pagesFetched pages idx (fuel + 1) c =
          1 + pagesFetched pages (idx + 1) fuel (pages idx).cursor := by
        simp [pagesFetched, h]
      set N' := pagesFetched pages (idx + 1) fuel (pages idx).cursor with hN'
      have hfuelpos : 0 < fuel := by omega
      have hN'pos : 0 < N' := pagesFetched_pos fuel pages (idx + 1) (pages idx).cursor hfuelpos
      have hN'lt : N' < fuel := by omega
      have hs := ih pages (idx + 1) (pages idx).cursor hN'lt hN'pos
      rw [hN]
      rw [show 1 + N' - 1 = (N' - 1) + 1 from by omega]
      rw [reqCursor_shift]
      rw [show idx + (N' - 1 + 1) = (idx + 1) + (N' - 1) from by omega]
      exact hs

/-- Helper: the exposed cursor is the request cursor of the last page or the
cursor that page produced. -/
theorem fetchAllGo_final_cursor (fuel : Nat) :
    ∀ (pages : Nat → ParsedEventsPage) (idx : Nat) (c : PollCursor)
      (agg : ParsedEventsPage),
      0 < pagesFetched pages idx fuel c →
      (fetchAllGo pages idx fuel c agg).cursor =
          reqCursor pages idx c (pagesFetched pages idx fuel c - 1) ∨
        (fetchAllGo pages idx fuel c agg).cursor =
          (pages (idx + (pagesFetched pages idx fuel c - 1))).cursor := by
  induction fuel with
  | zero =>
    intro pages idx c agg h
    simp [pagesFetched] at h
  | succ fuel ih =>
    intro pages idx c agg hpos
    by_cases h : stopCond c (pages idx)
    · have hN : pagesFetched pages idx (fuel + 1) c = 1 := by
        simp [pagesFetched, h]
      rw [hN]
      rcases fetchAllGo_stop_cursor pages idx fuel c agg h with h1 | ⟨h1, _⟩
      · left
        simpa [reqCursor] using h1
      · right
        simpa [reqCursor] using h1
    · have hN : pagesFetched pages idx (fuel + 1) c =
          1 + pagesFetched pages (idx + 1) fuel (pages idx).cursor := by
        simp [pagesFetched, h]
      set N' := pagesFetched pages (idx + 1) fuel (pages idx).cursor with hN'
      rw [fetchAllGo_continue pages idx fuel c agg h, hN]
      rcases Nat.eq_zero_or_pos N' with h0 | hN'pos
      · -- the recursive call has fuel 0 and returns its aggregate unchanged
        have hfuel : fuel = 0 := by
          by_contra hf
          have := pagesFetched_pos fuel pages (idx + 1) (pages idx).cursor
            (Nat.pos_of_ne_zero hf)
          omega
        subst hfuel
        rw [h0]
        right
        simp [fetchAllGo]
      · rcases ih pages (idx + 1) (pages idx).cursor _ hN'pos with h1 | h1
        · left
          rw [h1]
          rw [show 1 + N' - 1 = (N' - 1) + 1 from by omega]
          rw [reqCursor_shift]
        · right
          rw [h1]
          rw [show idx + (1 + N' - 1) = idx + 1 + (N' - 1) from by omega]

/-- Helper: the exposed cursor is the start cursor or the cursor produced by
some fetched page that still had further data. -/
theorem fetchAllGo_adopted_cursor (fuel : Nat) :
    ∀ (pages : Nat → ParsedEventsPage) (idx : Nat) (c : PollCursor)
      (agg : ParsedEventsPage),
      agg.cursor = c →
      (fetchAllGo pages idx fuel c agg).cursor = c ∨
        ∃ i, idx ≤ i ∧ i < idx + pagesFetched pages idx fuel c ∧
          (fetchAllGo pages idx fuel c agg).cursor = (pages i).cursor ∧
          (pages i).hasMore = true := by
  induction fuel with
  | zero =>
    intro pages idx c agg hac
    left
    exact hac
  | succ fuel ih =>
    intro pages idx c agg hac
    by_cases h : stopCond c (pages idx)
    · rcases fetchAllGo_stop_cursor pages idx fuel c agg h with h1 | ⟨h1, h2⟩
      · left
        exact h1
      · right
        have hN : pagesFetched pages idx (fuel + 1) c = 1 := by
          simp [pagesFetched, h]
        exact ⟨idx, le_refl _, by omega, h1, h2⟩
    · have hN : pagesFetched pages idx (fuel + 1) c =
          1 + pagesFetched pages (idx + 1) fuel (pages idx).cursor := by
        simp [pagesFetched, h]
      rw [fetchAllGo_continue pages idx fuel c agg h]
      have hm : (pages idx).hasMore = true := by
        simpa using fun hx => h (Or.inl hx)
      rcases ih pages (idx + 1) (pages idx).cursor
          { agg with
            events := agg.events ++ (pages idx).events
            receivedCount := agg.receivedCount + (pages idx).receivedCount
            cursor := (pages idx).cursor
            pageToken := (pages idx).pageToken
            hasMore := if fuel = 0 then false else (pages idx).hasMore } rfl with
        h1 | ⟨i, hi1, hi2, hi3, hi4⟩
      · right
        exact ⟨idx, le_refl _, by omega, h1, hm⟩
      · right
        exact ⟨i, by omega, by omega, hi3, hi4⟩

/-- C5: the harvest loop stops exactly when one of the termination conditions
first holds after a page — the page budget, no further data declared, a
returned cursor that did not advance strictly past the request cursor, or an
empty page without a continuation token; on termination the aggregate carries
the concatenated actions of all fetched pages and exposes the last cursor
that was successfully used or produced. -/
theorem fetch_all_pages_termination (pages : Nat → ParsedEventsPage)
    (startCursor : PollCursor) (maxPages : Nat) :
    pagesFetched pages 0 maxPages startCursor ≤ maxPages ∧
    (∀ k, k + 1 < pagesFetched pages 0 maxPages startCursor →
      ¬ stopCond (reqCursor pages 0 startCursor k) (pages k)) ∧
    (pagesFetched pages 0 maxPages startCursor < maxPages →
      0 < pagesFetched pages 0 maxPages startCursor →
      stopCond
        (reqCursor pages 0 startCursor (pagesFetched pages 0 maxPages startCursor - 1))
        (pages (pagesFetched pages 0 maxPages startCursor - 1))) ∧
    (fetchAllHypersnapPages pages startCursor maxPages).events =
      (List.range (pagesFetched pages 0 maxPages startCursor)).flatMap
        (fun i => (pages i).events) ∧
    (0 < pagesFetched pages 0 maxPages startCursor →
      (fetchAllHypersnapPages pages startCursor maxPages).cursor =
          reqCursor pages 0 startCursor (pagesFetched pages 0 maxPages startCursor - 1) ∨
        (fetchAllHypersnapPages pages startCursor maxPages).cursor =
          (pages (pagesFetched pages 0 maxPages startCursor - 1)).cursor) ∧
    (pagesFetched pages 0 maxPages startCursor = 0 →
      (fetchAllHypersnapPages pages startCursor maxPages).cursor = startCursor) := by
  refine ⟨pagesFetched_le maxPages pages 0 startCursor, ?_, ?_, ?_, ?_, ?_⟩
  · intro k hk
    have h := fetchAllGo_no_early_stop maxPages pages 0 startCursor k hk
    simpa using h
  · intro hlt hpos
    have h := fetchAllGo_stop_at_last maxPages pages 0 startCursor hlt hpos
    simpa using h
  · have h := fetchAllGo_events maxPages pages 0 startCursor
      (emptyAggregate startCursor)
    rw [fetchAllHypersnapPages, h]
    simp [emptyAggregate, List.range_eq_range']
  · intro hpos
    have h := fetchAllGo_final_cursor maxPages pages 0 startCursor
      (emptyAggregate startCursor) hpos
    simpa using h
  · intro h0
    have hfuel : maxPages = 0 := by
      by_contra hf
      have := pagesFetched_pos maxPages pages 0 startCursor (Nat.pos_of_ne_zero hf)
      omega
    subst hfuel
    rfl

/-- C5 witness: the termination characterisation on the scenario oracle with
page budget 3, where the second page returns a cursor that does not advance:
the loop terminates after two pages, aggregating exactly the actions of the
first two pages, and no condition held after page one. -/
theorem fetch_all_pages_termination_witness :
    pagesFetched exPagesOracle 0 3 { fromEventId := 0, pageToken := none } = 2 ∧
    (fetchAllHypersnapPages exPagesOracle { fromEventId := 0, pageToken := none }
        3).events = exPage0.events ++ exPage1.events ∧
    stopCond (reqCursor exPagesOracle 0 { fromEventId := 0, pageToken := none } 1)
      (exPagesOracle 1) ∧
    (¬ stopCond (reqCursor exPagesOracle 0 { fromEventId := 0, pageToken := none } 0)
      (exPagesOracle 0)) ∧
    (fetchAllHypersnapPages exPagesOracle { fromEventId := 0, pageToken := none }
        3).cursor = exPage0.cursor := by
  have h := fetch_all_pages_termination exPagesOracle
    { fromEventId := 0, pageToken := none } 3
  refine ⟨by decide, ?_, ?_, ?_, by decide⟩
  · rw [h.2.2.2.1]
    decide
  · exact h.2.2.1 (by decide) (by decide)
  · exact h.2.1 0 (by decide)

/-- Helper: a page whose parse declares further data produced at least one
action. -/
theorem parsePageCore_hasMore_events (payload : Json) (now : Int)
    (h : (parsePageCore payload now).hasMore = true) :
    (parsePageCore payload now).events ≠ [] := by
  intro hev
  rw [show (parsePageCore payload now).hasMore =
      ((parsePageCore payload now).pageToken.isSome &&
        !(parsePageCore payload now).events.isEmpty) from rfl] at h
  rw [hev] at h
  simp at h

/-- C4 counterexample: a two-page cycle whose second page (sequence 50, no
continuation token) is aggregated while only the first page cursor (11) is
adopted, so a successful cycle moves fromEventId forward to 11 even though
the maximum event sequence number observed during the cycle is 50 — the new
value is not the overall maximum plus one. -/
theorem cycle_adopts_stale_page_cursor :
    (harvestCycle exBodies 0 3 { fromEventId := 0, pageToken := none }).fromEventId
        = 11 ∧
    (0 : Int) < 11 ∧
    specMaxSeen exHarvestBody0 = 10 ∧
    specMaxSeen exHarvestBody1 = 50 ∧
    (fetchAllHypersnapPages (fun i => parsePageCore (exBodies i) 0)
        { fromEventId := 0, pageToken := none } 3).events.length = 2 ∧
    (harvestCycle exBodies 0 3 { fromEventId := 0, pageToken := none }).fromEventId
        ≠ max (specMaxSeen exHarvestBody0) (specMaxSeen exHarvestBody1) + 1 := by
  exact ⟨by decide, by decide, by decide, by decide, by decide, by decide⟩

/-- C4 amended: fromEventId never regresses across harvest cycles — neither
in one cycle nor along any sequence of cycles — and whenever a cycle moves it
forward, the new value equals the cursor of one of the pages fetched during
that cycle that produced at least one action, namely the maximum event
sequence number seen in that page plus one (which can be below the overall
maximum observed in the cycle). -/
theorem cursor_never_regresses :
    (∀ (input : CycleInput) (c : PollCursor),
      c.fromEventId ≤
        (harvestCycle input.bodies input.now input.maxPages c).fromEventId) ∧
    (∀ (inputs : List CycleInput) (c : PollCursor),
      c.fromEventId ≤ (runCycles inputs c).fromEventId) ∧
    (∀ (bodies : Nat → Json) (now : Int) (maxPages : Nat) (c : PollCursor),
      c.fromEventId < (harvestCycle bodies now maxPages c).fromEventId →
      ∃ i, i < maxPages ∧ (parsePageCore (bodies i) now).events ≠ [] ∧
        harvestCycle bodies now maxPages c = (parsePageCore (bodies i) now).cursor ∧
        (harvestCycle bodies now maxPages c).fromEventId =
          specMaxSeen (bodies i) + 1) := by
  have hstep : ∀ (bodies : Nat → Json) (now : Int) (maxPages : Nat) (c : PollCursor),
      c.fromEventId ≤ (harvestCycle bodies now maxPages c).fromEventId := by
    intro bodies now maxPages c
    unfold harvestCycle refreshCursor
    split
    · omega
    · omega
  refine ⟨fun input c => hstep input.bodies input.now input.maxPages c, ?_, ?_⟩
  · intro inputs
    induction inputs with
    | nil => intro c; exact le_refl _
    | cons i rest ih =>
      intro c
      calc c.fromEventId ≤
          (harvestCycle i.bodies i.now i.maxPages c).fromEventId :=
            hstep i.bodies i.now i.maxPages c
        _ ≤ (runCycles rest (harvestCycle i.bodies i.now i.maxPages c)).fromEventId :=
            ih _
        _ = (runCycles (i :: rest) c).fromEventId := rfl
  · intro bodies now maxPages c hfwd
    have hres : harvestCycle bodies now maxPages c =
        (fetchAllHypersnapPages (fun i => parsePageCore (bodies i) now) c
          maxPages).cursor := by
      unfold harvestCycle refreshCursor at hfwd ⊢
      split at hfwd
      · split
        · rfl
        · omega
      · omega
    have hadopt := fetchAllGo_adopted_cursor maxPages
      (fun i => parsePageCore (bodies i) now) 0 c (emptyAggregate c) rfl
    rcases hadopt with hsame | ⟨i, _, hi2, hi3, hi4⟩
    · exfalso
      rw [hres] at hfwd
      unfold fetchAllHypersnapPages at hfwd
      rw [hsame] at hfwd
      omega
    · have hiN : i < maxPages := by
        have := pagesFetched_le maxPages (fun i => parsePageCore (bodies i) now) 0 c
        omega
      have hev := parsePageCore_hasMore_events (bodies i) now hi4
      refine ⟨i, hiN, hev, ?_, ?_⟩
      · rw [hres]
        exact hi3
      · rw [hres]
        unfold fetchAllHypersnapPages
        rw [hi3]
        have hmax := (parse_cursor_from_max_seen (bodies i) now).1
        rw [if_neg hev] at hmax
        exact hmax

/-- C4 witness: the monotone-advance characterisation on a concrete cycle
that moves the cursor forward. -/
theorem cursor_never_regresses_witness :
    ({ fromEventId := 0, pageToken := none } : PollCursor).fromEventId ≤
      (harvestCycle exBodies 0 3
        { fromEventId := 0, pageToken := none }).fromEventId ∧
    (∃ i, i < 3 ∧ (parsePageCore (exBodies i) 0).events ≠ [] ∧
      harvestCycle exBodies 0 3 { fromEventId := 0, pageToken := none } =
        (parsePageCore (exBodies i) 0).cursor ∧
      (harvestCycle exBodies 0 3
          { fromEventId := 0, pageToken := none }).fromEventId =
        specMaxSeen (exBodies i) + 1) := by
  refine ⟨cursor_never_regresses.1 ⟨exBodies, 0, 3⟩ _, ?_⟩
  exact cursor_never_regresses.2.2 exBodies 0 3
    { fromEventId := 0, pageToken := none } (by decide)


/-- Helper: the store component of one counted apply step. -/
theorem applyEvent_fst (st : Store) (c : ApplyCounts) (e : ParsedEvent) :
    (applyEvent (st, c) e).1 = applyEventState st e := by
  cases e <;> rfl

/-- Helper: the store component of a counted fold ignores the counts. -/
theorem foldl_applyEvent_fst (L : List ParsedEvent) :
    ∀ (st : Store) (c : ApplyCounts),
      (L.foldl applyEvent (st, c)).1 = applyStates L st := by
  induction L with
  | nil => intro st c; rfl
  | cons e rest ih =>
    intro st c
    rw [List.foldl_cons, show applyStates (e :: rest) st =
      applyStates rest (applyEventState st e) from rfl]
    rw [show applyEvent (st, c) e = ((applyEvent (st, c) e).1, (applyEvent (st, c) e).2)
      from rfl, applyEvent_fst]
    exact ih _ _

/-- Helper: the store produced by one page apply. -/
theorem applyPage_fst (L : List ParsedEvent) (st : Store) :
    (applyPage L st).1 = applyStates L st :=
  foldl_applyEvent_fst L st _

/-- Helper: an action leaves every other hash untouched. -/
theorem applyEventState_other (st : Store) (e : ParsedEvent) (h : String)
    (hne : h ≠ eventHash e) : applyEventState st e h = st h := by
  cases e with
  | upsert a =>
    have hne2 : h ≠ a.hash := hne
    simp only [applyEventState, upsertCastFromEvent]
    by_cases he : a.hash = ""
    · simp [he]
    · simp only [if_neg he]
      cases hst : st a.hash with
      | none => simp [storeSet, hne2]
      | some ex =>
        by_cases hgt : ex.eventId > a.eventId
        · simp [hgt]
        · simp [hgt, storeSet, hne2]
  | delete d =>
    have hne2 : h ≠ d.hash := hne
    simp only [applyEventState, tombstoneCast]
    cases hst : st d.hash with
    | none => rfl
    | some ex =>
      by_cases hd : ex.deleted
      · simp [hd]
      · simp [hd, storeSet, hne2]

/-- Helper: on its own hash an action acts as the per-hash step. -/
theorem applyEventState_self (st : Store) (e : ParsedEvent) :
    applyEventState st e (eventHash e) = hstep (st (eventHash e)) e := by
  cases e with
  | upsert a =>
    simp only [applyEventState, upsertCastFromEvent, hstep, eventHash]
    by_cases he : a.hash = ""
    · simp [he]
    · simp only [if_neg he]
      cases hst : st a.hash with
      | none => simp [storeSet, hst]
      | some ex =>
        by_cases hgt : ex.eventId > a.eventId
        · simp [hgt, hst]
        · simp [hgt, storeSet, hst]
  | delete d =>
    simp only [applyEventState, tombstoneCast, hstep, eventHash]
    cases hst : st d.hash with
    | none => simp [hst]
    | some ex =>
      by_cases hd : ex.deleted
      · simp [hd, hst]
      · simp [hd, storeSet, hst]

/-- Helper: pointwise decomposition of an apply run into per-hash runs. -/
theorem applyStates_pointwise (L : List ParsedEvent) :
    ∀ (st : Store) (h : String),
      applyStates L st h = hfold (st h) (L.filter (fun e => eventHash e = h)) := by
  induction L with
  | nil => intro st h; rfl
  | cons e rest ih =>
    intro st h
    rw [show applyStates (e :: rest) st = applyStates rest (applyEventState st e)
      from rfl]
    rw [ih]
    by_cases he : eventHash e = h
    · rw [List.filter_cons_of_pos (by simpa using he)]
      rw [show hfold (st h) (e :: rest.filter (fun e => eventHash e = h)) =
        hfold (hstep (st h) e) (rest.filter (fun e => eventHash e = h)) from rfl]
      subst he
      rw [applyEventState_self]
    · rw [List.filter_cons_of_neg (by simpa using he)]
      rw [applyEventState_other st e h (fun hx => he hx.symm)]

/-- Helper: a present row stays present and its eventId never decreases
under one step. -/
theorem hstep_some (r : FeedCastRow) (e : ParsedEvent) :
    ∃ r2, hstep (some r) e = some r2 ∧ r.eventId ≤ r2.eventId := by
  cases e with
  | upsert a =>
    by_cases he : a.hash = ""
    · exact ⟨r, by simp [hstep, he], le_refl _⟩
    · by_cases hgt : r.eventId > a.eventId
      · exact ⟨r, by simp [hstep, he, hgt], le_refl _⟩
      · refine ⟨rowOfUpsert a, by simp [hstep, he, hgt], ?_⟩
        simp only [rowOfUpsert]
        omega
  | delete d =>
    by_cases hd : r.deleted
    · exact ⟨r, by simp [hstep, hd], le_refl _⟩
    · exact ⟨{ r with deleted := true }, by simp [hstep, hd], le_refl _⟩

/-- Helper: a present row stays present and its eventId never decreases
under a run. -/
theorem hfold_some (m : List ParsedEvent) :
    ∀ r : FeedCastRow, ∃ r2, hfold (some r) m = some r2 ∧ r.eventId ≤ r2.eventId := by
  induction m with
  | nil => intro r; exact ⟨r, rfl, le_refl _⟩
  | cons e rest ih =>
    intro r
    obtain ⟨r1, h1, h2⟩ := hstep_some r e
    obtain ⟨r2, h3, h4⟩ := ih r1
    refine ⟨r2, ?_, by omega⟩
    rw [show hfold (some r) (e :: rest) = hfold (hstep (some r) e) rest from rfl, h1]
    exact h3

/-- Helper: without effective upserts a missing row stays missing. -/
theorem hfold_none_of_noEff (m : List ParsedEvent) (h : noEffUpsert m) :
    hfold none m = none := by
  induction m with
  | nil => rfl
  | cons e rest ih =>
    have hrest : noEffUpsert rest := fun a ha => h a (List.mem_cons_of_mem _ ha)
    rw [show hfold none (e :: rest) = hfold (hstep none e) rest from rfl]
    cases e with
    | upsert a =>
      have ha : a.hash = "" := h a (List.mem_cons_self _ _)
      rw [show hstep none (ParsedEvent.upsert a) = none by simp [hstep, ha]]
      exact ih hrest
    | delete d =>
      rw [show hstep none (ParsedEvent.delete d) = none from rfl]
      exact ih hrest

/-- Helper: a run whose effective upserts respect a bound keeps the row
eventId under that bound. -/
theorem hfold_bound (m : List ParsedEvent) :
    ∀ (s : Option FeedCastRow) (E : Int), effUpsertBound m E →
      (∀ r, s = some r → r.eventId ≤ E) →
      ∀ r2, hfold s m = some r2 → r2.eventId ≤ E := by
  induction m with
  | nil =>
    intro s E _ hs r2 h2
    exact hs r2 h2
  | cons e rest ih =>
    intro s E hb hs r2 h2
    rw [show hfold s (e :: rest) = hfold (hstep s e) rest from rfl] at h2
    have hbrest : effUpsertBound rest E := fun a ha => hb a (List.mem_cons_of_mem _ ha)
    refine ih (hstep s e) E hbrest ?_ r2 h2
    intro r1 h1
    cases e with
    | upsert a =>
      by_cases he : a.hash = ""
      · rw [show hstep s (ParsedEvent.upsert a) = s by simp [hstep, he]] at h1
        exact hs r1 h1
      · have haE : a.eventId ≤ E :=
          hb a (List.mem_cons_self _ _) he
        cases s with
        | none =>
          rw [show hstep none (ParsedEvent.upsert a) = some (rowOfUpsert a) by
            simp [hstep, he]] at h1
          cases h1
          simpa [rowOfUpsert] using haE
        | some ex =>
          by_cases hgt : ex.eventId > a.eventId
          · rw [show hstep (some ex) (ParsedEvent.upsert a) = some ex by
              simp [hstep, he, hgt]] at h1
            exact hs r1 h1
          · rw [show hstep (some ex) (ParsedEvent.upsert a) = some (rowOfUpsert a) by
              simp [hstep, he, hgt]] at h1
            cases h1
            simpa [rowOfUpsert] using haE
    | delete d =>
      cases s with
      | none =>
        rw [show hstep none (ParsedEvent.delete d) = none from rfl] at h1
        cases h1
      | some ex =>
        by_cases hd : ex.deleted
        · rw [show hstep (some ex) (ParsedEvent.delete d) = some ex by
            simp [hstep, hd]] at h1
          exact hs r1 h1
        · rw [show hstep (some ex) (ParsedEvent.delete d) =
            some { ex with deleted := true } by simp [hstep, hd]] at h1
          cases h1
          exact hs ex rfl

/-- Helper: replaying a list from the tombstoned copy of the row it produced
yields that row, live or tombstoned. -/
theorem hfold_tomb (m : List ParsedEvent) :
    ∀ (s : Option FeedCastRow) (r : FeedCastRow), hfold s m = some r →
      r.deleted = false →
      hfold (some { r with deleted := true }) m = some r ∨
        hfold (some { r with deleted := true }) m = some { r with deleted := true } := by
  induction m with
  | nil =>
    intro s r hs hl
    right
    rfl
  | cons e rest ih =>
    intro s r hs hl
    rw [show hfold s (e :: rest) = hfold (hstep s e) rest from rfl] at hs
    rw [show hfold (some { r with deleted := true }) (e :: rest) =
      hfold (hstep (some { r with deleted := true }) e) rest from rfl]
    cases e with
    | delete d =>
      rw [show hstep (some { r with deleted := true }) (ParsedEvent.delete d) =
        some { r with deleted := true } by simp [hstep]]
      exact ih _ r hs hl
    | upsert a =>
      by_cases he : a.hash = ""
      · rw [show hstep (some { r with deleted := true }) (ParsedEvent.upsert a) =
          some { r with deleted := true } by simp [hstep, he]]
        exact ih _ r hs hl
      · by_cases hgt : r.eventId > a.eventId
        · rw [show hstep (some { r with deleted := true }) (ParsedEvent.upsert a) =
            some { r with deleted := true } by simp [hstep, he, hgt]]
          exact ih _ r hs hl
        · -- the tomb accepts the upsert; compare with the original run
          rw [show hstep (some { r with deleted := true }) (ParsedEvent.upsert a) =
            some (rowOfUpsert a) by simp [hstep, he, hgt]]
          cases s with
          | none =>
            rw [show hstep none (ParsedEvent.upsert a) = some (rowOfUpsert a) by
              simp [hstep, he]] at hs
            left
            exact hs
          | some ex =>
            by_cases hex : ex.eventId > a.eventId
            · -- the original run rejected it: its eventId could then never
              -- come back down to the final r.eventId ≤ a.eventId
              exfalso
              rw [show hstep (some ex) (ParsedEvent.upsert a) = some ex by
                simp [hstep, he, hex]] at hs
              obtain ⟨r2, h2, h3⟩ := hfold_some rest ex
              rw [hs] at h2
              cases h2
              omega
            · rw [show hstep (some ex) (ParsedEvent.upsert a) = some (rowOfUpsert a) by
                simp [hstep, he, hex]] at hs
              left
              exact hs

/-- Helper: unfolding a per-hash run on a final action. -/
theorem hfold_append_one (u : Option FeedCastRow) (m : List ParsedEvent)
    (e : ParsedEvent) : hfold u (m ++ [e]) = hstep (hfold u m) e := by
  rw [hfold, List.foldl_append]
  rfl

/-- Helper: per-hash replay fixpoint, with the bound invariant carried
through the induction. -/
theorem hfold_replay (m : List ParsedEvent) :
    ∀ s : Option FeedCastRow,
      hfold (hfold s m) m = hfold s m ∧ ubState m (hfold s m) := by
  induction m using List.reverseRecOn with
  | nil =>
    intro s
    refine ⟨rfl, ?_⟩
    cases s with
    | none => intro a ha; cases ha
    | some r => intro a ha; cases ha
  | append_singleton m e ih =>
    intro s
    obtain ⟨ih1, ih2⟩ := ih s
    rw [hfold_append_one s m e, hfold_append_one (hstep (hfold s m) e) m e]
    have hub : ∀ t : Option FeedCastRow, ubState m t → ubState (m ++ [e]) (hstep t e) := by
      intro t hut
      cases e with
      | delete d =>
        cases t with
        | none =>
          intro a ha
          rcases List.mem_append.mp ha with ha | ha
          · exact hut a ha
          · simp at ha
        | some r =>
          by_cases hd : r.deleted
          · rw [show hstep (some r) (ParsedEvent.delete d) = some r by simp [hstep, hd]]
            intro a ha hne
            rcases List.mem_append.mp ha with ha | ha
            · exact hut a ha hne
            · simp at ha
          · rw [show hstep (some r) (ParsedEvent.delete d) =
              some { r with deleted := true } by simp [hstep, hd]]
            intro a ha hne
            rcases List.mem_append.mp ha with ha | ha
            · exact hut a ha hne
            · simp at ha
      | upsert b =>
        by_cases he : b.hash = ""
        · rw [show hstep t (ParsedEvent.upsert b) = t by
            cases t <;> simp [hstep, he]]
          cases t with
          | none =>
            intro a ha
            rcases List.mem_append.mp ha with ha | ha
            · exact hut a ha
            · simp at ha
              subst ha
              exact he
          | some r =>
            intro a ha hne
            rcases List.mem_append.mp ha with ha | ha
            · exact hut a ha hne
            · simp at ha
              subst ha
              exact absurd he hne
        · cases t with
          | none =>
            rw [show hstep none (ParsedEvent.upsert b) = some (rowOfUpsert b) by
              simp [hstep, he]]
            intro a ha hne
            rcases List.mem_append.mp ha with ha | ha
            · exact absurd (hut a ha) hne
            · simp at ha
              subst ha
              simp [rowOfUpsert]
          | some r =>
            by_cases hgt : r.eventId > b.eventId
            · rw [show hstep (some r) (ParsedEvent.upsert b) = some r by
                simp [hstep, he, hgt]]
              intro a ha hne
              rcases List.mem_append.mp ha with ha | ha
              · exact hut a ha hne
              · simp at ha
                subst ha
                omega
            · rw [show hstep (some r) (ParsedEvent.upsert b) = some (rowOfUpsert b) by
                simp [hstep, he, hgt]]
              intro a ha hne
              rcases List.mem_append.mp ha with ha | ha
              · have := hut a ha hne
                simp only [rowOfUpsert]
                omega
              · simp at ha
                subst ha
                simp [rowOfUpsert]
    refine ⟨?_, hub (hfold s m) ih2⟩
    -- replay: hstep (hfold (hstep (hfold s m) e) m) e = hstep (hfold s m) e
    cases e with
    | delete d =>
      cases ht : hfold s m with
      | none =>
        have hne : noEffUpsert m := by
          have := ih2
          rw [ht] at this
          exact this
        rw [show hstep none (ParsedEvent.delete d) = none from rfl]
        rw [hfold_none_of_noEff m hne]
        rfl
      | some r =>
        by_cases hd : r.deleted
        · rw [show hstep (some r) (ParsedEvent.delete d) = some r by simp [hstep, hd]]
          rw [ht] at ih1
          rw [ih1]
          simp [hstep, hd]
        · rw [show hstep (some r) (ParsedEvent.delete d) =
            some { r with deleted := true } by simp [hstep, hd]]
          rcases hfold_tomb m s r ht (by simpa using hd) with h | h
          · rw [h]
            simp [hstep, hd]
          · rw [h]
            simp [hstep]
    | upsert a =>
      by_cases he : a.hash = ""
      · rw [show hstep (hfold s m) (ParsedEvent.upsert a) = hfold s m by
          cases hfold s m <;> simp [hstep, he]]
        rw [ih1]
        rw [show hstep (hfold s m) (ParsedEvent.upsert a) = hfold s m by
          cases hfold s m <;> simp [hstep, he]]
      · cases ht : hfold s m with
        | none =>
          have hne : noEffUpsert m := by
            have := ih2
            rw [ht] at this
            exact this
          rw [show hstep none (ParsedEvent.upsert a) = some (rowOfUpsert a) by
            simp [hstep, he]]
          have hb : effUpsertBound m (rowOfUpsert a).eventId := by
            intro b hb hbne
            exact absurd (hne b hb) hbne
          obtain ⟨r2, h2, h3⟩ := hfold_some m (rowOfUpsert a)
          have h4 : r2.eventId ≤ (rowOfUpsert a).eventId :=
            hfold_bound m (some (rowOfUpsert a)) (rowOfUpsert a).eventId hb
              (by intro r hr; cases hr; exact le_refl _) r2 h2
          have h3b : a.eventId ≤ r2.eventId := h3
          have h4b : r2.eventId ≤ a.eventId := h4
          have hng : ¬ r2.eventId > a.eventId := by omega
          rw [h2]
          simp [hstep, he, hng]
        | some ex =>
          have hbm : effUpsertBound m ex.eventId := by
            have := ih2
            rw [ht] at this
            exact this
          by_cases hgt : ex.eventId > a.eventId
          · rw [show hstep (some ex) (ParsedEvent.upsert a) = some ex by
              simp [hstep, he, hgt]]
            rw [ht] at ih1
            rw [ih1]
            simp [hstep, he, hgt]
          · rw [show hstep (some ex) (ParsedEvent.upsert a) = some (rowOfUpsert a) by
              simp [hstep, he, hgt]]
            have hb : effUpsertBound m (rowOfUpsert a).eventId := by
              intro b hbm2 hbne
              have := hbm b hbm2 hbne
              simp only [rowOfUpsert]
              omega
            obtain ⟨r2, h2, h3⟩ := hfold_some m (rowOfUpsert a)
            have h4 : r2.eventId ≤ (rowOfUpsert a).eventId :=
              hfold_bound m (some (rowOfUpsert a)) (rowOfUpsert a).eventId hb
                (by intro r hr; cases hr; exact le_refl _) r2 h2
            have h3b : a.eventId ≤ r2.eventId := h3
            have h4b : r2.eventId ≤ a.eventId := h4
            have hng : ¬ r2.eventId > a.eventId := by omega
            rw [h2]
            simp [hstep, he, hng]

/-- Helper: applying an action list a second time leaves the store
unchanged. -/
theorem applyStates_idem (L : List ParsedEvent) (σ : Store) :
    applyStates L (applyStates L σ) = applyStates L σ := by
  funext h
  rw [applyStates_pointwise L (applyStates L σ) h, applyStates_pointwise L σ h]
  exact (hfold_replay (L.filter (fun e => eventHash e = h)) (σ h)).1

/-- Helper: an action never removes a hash from the store. -/
theorem applyEventState_presence (st : Store) (e : ParsedEvent) (h : String)
    (hp : st h ≠ none) : applyEventState st e h ≠ none := by
  by_cases hh : h = eventHash e
  · subst hh
    rw [applyEventState_self]
    cases hst : st (eventHash e) with
    | none => exact absurd hst hp
    | some r =>
      obtain ⟨r2, h2, _⟩ := hstep_some r e
      rw [h2]
      simp
  · rw [applyEventState_other st e h hh]
    exact hp

/-- Helper: a run never removes a hash from the store. -/
theorem applyStates_presence (L : List ParsedEvent) :
    ∀ (st : Store) (h : String), st h ≠ none → applyStates L st h ≠ none := by
  induction L with
  | nil => intro st h hp; exact hp
  | cons e rest ih =>
    intro st h hp
    exact ih _ h (applyEventState_presence st e h hp)

/-- Helper: after a run, the hash of every effective upsert of the list is
present. -/
theorem upsert_presence (L : List ParsedEvent) :
    ∀ (st : Store) (a : ParsedCastAction), ParsedEvent.upsert a ∈ L →
      a.hash ≠ "" → applyStates L st a.hash ≠ none := by
  induction L with
  | nil => intro st a ha; cases ha
  | cons e rest ih =>
    intro st a ha hne
    rcases List.mem_cons.mp ha with ha | ha
    · subst ha
      refine applyStates_presence rest _ _ ?_
      rw [show applyEventState st (ParsedEvent.upsert a) a.hash =
        hstep (st a.hash) (ParsedEvent.upsert a) from
        applyEventState_self st (ParsedEvent.upsert a)]
      cases hst : st a.hash with
      | none => simp [hstep, hne]
      | some ex =>
        obtain ⟨r2, h2, _⟩ := hstep_some ex (ParsedEvent.upsert a)
        rw [h2]
        simp
    · exact ih _ a ha hne

/-- Helper: the added count stays put when every upsert of the list already
has its hash present. -/
theorem foldl_added (L : List ParsedEvent) :
    ∀ (st : Store) (c : ApplyCounts),
      (∀ a : ParsedCastAction, ParsedEvent.upsert a ∈ L → st a.hash ≠ none) →
      (L.foldl applyEvent (st, c)).2.added = c.added := by
  induction L with
  | nil => intro st c _; rfl
  | cons e rest ih =>
    intro st c hp
    rw [List.foldl_cons]
    have hsnd : (applyEvent (st, c) e).2.added = c.added := by
      cases e with
      | upsert a =>
        have hpa := hp a (List.mem_cons_self _ _)
        cases hst : st a.hash with
        | none => exact absurd hst hpa
        | some p =>
          by_cases hcond : (p.deleted || decide (p.eventId < a.eventId)) = true
          · simp [applyEvent, hst, hcond]
          · simp [applyEvent, hst, hcond]
      | delete d =>
        by_cases hb : (tombstoneCast st d.hash d.eventId).2 = true
        · simp [applyEvent, hb]
        · simp only [applyEvent]
          rw [if_neg hb]
    have hpres : ∀ a : ParsedCastAction, ParsedEvent.upsert a ∈ rest →
        (applyEvent (st, c) e).1 a.hash ≠ none := by
      intro a ha
      rw [applyEvent_fst]
      exact applyEventState_presence st e a.hash (hp a (List.mem_cons_of_mem _ ha))
    calc (rest.foldl applyEvent (applyEvent (st, c) e)).2.added
        = (applyEvent (st, c) e).2.added := by
          rw [show applyEvent (st, c) e =
            ((applyEvent (st, c) e).1, (applyEvent (st, c) e).2) from rfl]
          exact ih _ _ (by
            intro a ha
            have := hpres a ha
            rw [show ((applyEvent (st, c) e).1, (applyEvent (st, c) e).2).1 =
              (applyEvent (st, c) e).1 from rfl]
            exact this)
      _ = c.added := hsnd

/-- C3 amended: applying the exact same action list a second time leaves the
record set of the store unchanged, and (provided every upsert carries a
non-empty hash, as every parsed action does) the second apply reports
added = 0; the updated and removed counts of the replay may be non-zero, as
the counterexample shows. -/
theorem replay_is_state_idempotent_adds_nothing (L : List ParsedEvent) (σ : Store) :
    applyStates L (applyStates L σ) = applyStates L σ ∧
    ((∀ a : ParsedCastAction, ParsedEvent.upsert a ∈ L → a.hash ≠ "") →
      (applyPage L (applyStates L σ)).2.added = 0) := by
  refine ⟨applyStates_idem L σ, ?_⟩
  intro hh
  exact foldl_added L _ _ (fun a ha => upsert_presence L σ a ha (hh a ha))

/-- C3 counterexample: replaying the two-action page (upsert then delete of
one hash at eventId 5) against the store it produced yields counts
added 0, updated 1, removed 1 — not the all-zero counts the claim states:
the replayed upsert revives the tombstone (counted as updated) and the
replayed delete re-tombstones it (counted as removed). -/
theorem replay_counts_not_zero :
    (applyPage exPageCc (applyStates exPageCc emptyStore)).2 =
      { added := 0, updated := 1, removed := 1 } ∧
    (applyPage exPageCc (applyStates exPageCc emptyStore)).2 ≠
      { added := 0, updated := 0, removed := 0 } := ⟨by decide, by decide⟩

/-- C3 witness: the amended replay theorem on the concrete two-action
page. -/
theorem replay_is_state_idempotent_adds_nothing_witness :
    applyStates exPageCc (applyStates exPageCc emptyStore) =
      applyStates exPageCc emptyStore ∧
    (applyPage exPageCc (applyStates exPageCc emptyStore)).2.added = 0 := by
  have h := replay_is_state_idempotent_adds_nothing exPageCc emptyStore
  refine ⟨h.1, h.2 ?_⟩
  intro a ha
  simp only [exPageCc, List.mem_cons, List.mem_singleton] at ha
  rcases ha with ha | ha | ha
  · cases ha
    decide
  · cases ha
  · cases ha

end Hypercast
